import Mathlib

/-!
Verification development for the DocFlow HR Retention & Legal-Hold
Compliance Engine.

The repository ships the stored data model (src/datamodel.md), the product
and sprint documents, and the frontend components; the compliance engine
itself (Policy Resolver, Retention Scheduler, Legal Hold Manager, Deletion
Executor, Audit Ledger) is specified but not implemented in the sources.
Engine operations below are therefore modelled from the specification text
(each such definition says so in its doc comment), while the
`legal_hold_targets` schema constraints and the `FileUploader` component
are embedded directly from src/datamodel.md and
src/frontend/components/file-uploader.tsx.

Machine conventions: ids and timestamps are `Nat` (abstract time units, so
`retention_start_at + duration_years` is plain addition), nullable columns
are `Option`, enum columns are inductive types, and tables are lists of
rows.
-/

namespace DocFlow

/-! ## Data model (rows of the §3 tables, src/datamodel.md §§7–8 and /events) -/

/-- `start_event` enum of `retention_policies` (src/datamodel.md line 376). -/
inductive StartEvent
  | received
  | termination
deriving DecidableEq

/-- Row of `retention_policies` (src/datamodel.md lines 369–377), reduced to
the fields the engine reads. -/
structure Policy where
  id : Nat
  durationYears : Nat
  startEvent : StartEvent
deriving DecidableEq

/-- `status` enum of `document_retention_schedules`
(src/datamodel.md line 404). -/
inductive ScheduleStatus
  | scheduled
  | pausedLegalHold
  | deleted
  | canceled
deriving DecidableEq

/-- Row of `document_retention_schedules` (src/datamodel.md lines 396–405).
The spec's §4.2 requires `deleteEligibleAt = null` until a
termination-anchored start event occurs, so both timestamps are `Option`
here even though the stored column is declared non-nullable. -/
structure Schedule where
  documentId : Nat
  retentionPolicyId : Nat
  retentionStartAt : Option Nat
  deleteEligibleAt : Option Nat
  status : ScheduleStatus
deriving DecidableEq

/-- `status` enum of `legal_holds` (src/datamodel.md line 420). -/
inductive HoldStatus
  | active
  | released
deriving DecidableEq

/-- Row of `legal_holds` (src/datamodel.md lines 416–426). -/
structure Hold where
  id : Nat
  status : HoldStatus
  releasedAt : Option Nat
  releasedBy : Option Nat
deriving DecidableEq

/-- `scope_type` of `legal_hold_scopes` with the field(s) relevant to that
type populated and all others null (src/datamodel.md lines 433–444,
spec §3 LegalHoldScope). -/
inductive ScopeType
  | employee (employeeId : Nat)
  | department (dept : String)
  | category (categoryId : Nat)
  | dateRange (startDate : Option Nat) (endDate : Option Nat)
  | allOrg
deriving DecidableEq

/-- Row of `legal_hold_scopes`: a targeting rule owned by a hold. -/
structure ScopeRow where
  legalHoldId : Nat
  scope : ScopeType
deriving DecidableEq

/-- Row of `legal_hold_targets` (src/datamodel.md lines 451–459): a
materialized (hold, document) pairing. -/
structure Target where
  legalHoldId : Nat
  documentId : Nat
deriving DecidableEq

/-- Row of `documents` (src/datamodel.md lines 237–247), reduced to the
fields legal-hold scope evaluation reads. -/
structure Document where
  id : Nat
  employeeId : Nat
  department : String
  categoryId : Option Nat
  receivedAt : Nat
deriving DecidableEq

/-- Row of `event_stream` (src/datamodel.md lines 541–563), reduced to the
fields the audit claims read. -/
structure AuditEvent where
  id : Nat
  actorId : Nat
  eventType : String
  entityId : Nat
  createdAt : Nat
deriving DecidableEq

/-- Tombstone record written by the Deletion Executor (spec §4.4). -/
structure Tombstone where
  documentId : Nat
  deletedAt : Nat
  policyId : Nat
deriving DecidableEq

/-- Modelled from the spec: the durable store of one tenant, holding the §3
tables the engine reads and writes, plus the append-only ledger and a
monotonic event-id source (spec §3 AuditEvent). The engine component code
is absent from the repository sources. -/
structure Engine where
  documents : List Document
  schedules : List Schedule
  holds : List Hold
  scopes : List ScopeRow
  targets : List Target
  tombstones : List Tombstone
  ledger : List AuditEvent
  nextEventId : Nat
deriving DecidableEq

/-! ## Derived checks -/

/-- Modelled from the spec: a hold id is active when some `legal_holds` row
with that id has status `active` (spec §3 LegalHold). -/
def listHoldActive (holds : List Hold) (hid : Nat) : Bool :=
  holds.any fun h => decide (h.id = hid) && decide (h.status = .active)

/-- Modelled from the spec: a document has an active target when some
`legal_hold_targets` row for it belongs to an active hold (spec §4.3:
targets "are marked inactive via the hold's own status"). -/
def listActiveTarget (targets : List Target) (holds : List Hold) (docId : Nat) : Bool :=
  targets.any fun t => decide (t.documentId = docId) && listHoldActive holds t.legalHoldId

/-- `listHoldActive` applied to the engine state. -/
def holdIsActive (e : Engine) (hid : Nat) : Bool :=
  listHoldActive e.holds hid

/-- `listActiveTarget` applied to the engine state: the O(1) enforcement
lookup of spec §3 LegalHoldTarget. -/
def hasActiveTarget (e : Engine) (docId : Nat) : Bool :=
  listActiveTarget e.targets e.holds docId

/-- Modelled from the spec: scope predicate evaluation (spec §3
LegalHoldScope; union semantics over a hold's scopes). -/
def scopeMatches (sc : ScopeType) (d : Document) : Bool :=
  match sc with
  | .employee eid => decide (d.employeeId = eid)
  | .department dep => decide (d.department = dep)
  | .category cid => decide (d.categoryId = some cid)
  | .dateRange lo hi =>
      (match lo with
       | none => true
       | some a => decide (a ≤ d.receivedAt)) &&
      (match hi with
       | none => true
       | some b => decide (d.receivedAt ≤ b))
  | .allOrg => true

/-- Modelled from the spec: whether any scope of a hold matches a document
(union semantics, spec §3). -/
def holdMatchesDoc (e : Engine) (hid : Nat) (d : Document) : Bool :=
  e.scopes.any fun row => decide (row.legalHoldId = hid) && scopeMatches row.scope d

/-! ## Audit Ledger (spec §4.5) -/

/-- Modelled from the spec: `append(event)` as the last step of a
state-changing operation; ids are assigned from the monotonic counter
(spec §3 AuditEvent, §4.5). -/
def appendEvent (e : Engine) (actorId : Nat) (eventType : String)
    (entityId : Nat) (now : Nat) : Engine :=
  { e with
    ledger := e.ledger ++
      [{ id := e.nextEventId, actorId := actorId, eventType := eventType,
         entityId := entityId, createdAt := now }],
    nextEventId := e.nextEventId + 1 }

/-- Modelled from the spec: the audit query filters (spec §4.5
`query(filters: entityType?, entityId?, actorId?, dateRange?, eventType?)`,
reduced to the fields of the embedded `AuditEvent`). -/
structure AuditFilters where
  entityId : Option Nat
  actorId : Option Nat
  dateFrom : Option Nat
  dateTo : Option Nat
  eventType : Option String
deriving DecidableEq

/-- Modelled from the spec: whether an event passes the query filters. -/
def matchesFilters (f : AuditFilters) (ev : AuditEvent) : Bool :=
  (match f.entityId with
   | none => true
   | some x => decide (ev.entityId = x)) &&
  (match f.actorId with
   | none => true
   | some x => decide (ev.actorId = x)) &&
  (match f.dateFrom with
   | none => true
   | some x => decide (x ≤ ev.createdAt)) &&
  (match f.dateTo with
   | none => true
   | some x => decide (ev.createdAt ≤ x)) &&
  (match f.eventType with
   | none => true
   | some x => decide (ev.eventType = x))

/-- Modelled from the spec: the total order on audit events, lexicographic
on `(createdAt, id)` (spec §3 AuditEvent). -/
def auditLe (a b : AuditEvent) : Prop :=
  a.createdAt < b.createdAt ∨ (a.createdAt = b.createdAt ∧ a.id ≤ b.id)

instance : DecidableRel auditLe := fun a b => by
  unfold auditLe
  infer_instance

instance : IsTotal AuditEvent auditLe where
  total a b := by
    unfold auditLe
    omega

instance : IsTrans AuditEvent auditLe where
  trans a b c hab hbc := by
    unfold auditLe at *
    omega

/-- Modelled from the spec: `query(filters)` returns the matching events in
`(createdAt, id)` order (spec §4.5). -/
def queryAudit (l : List AuditEvent) (f : AuditFilters) : List AuditEvent :=
  (l.filter (matchesFilters f)).insertionSort auditLe

/-! ## Retention Scheduler (spec §4.2) -/

/-- Modelled from the spec: `createSchedule(documentId, policy, startEvent)`
computes `retentionStartAt` from the start-event timestamp (`none` when the
policy's start event is termination and the employee is not yet
terminated), stores `deleteEligibleAt = retentionStartAt +
policy.durationYears` (null while the start event is pending), creates the
schedule in status `scheduled`, and appends an audit event (spec §4.2,
§3 RetentionSchedule). -/
def createSchedule (e : Engine) (docId : Nat) (policy : Policy)
    (startAt : Option Nat) (now : Nat) : Engine :=
  let s : Schedule :=
    { documentId := docId,
      retentionPolicyId := policy.id,
      retentionStartAt := startAt,
      deleteEligibleAt := startAt.map (fun t => t + policy.durationYears),
      status := .scheduled }
  appendEvent { e with schedules := e.schedules ++ [s] } 0 "retention.scheduled" docId now

/-- Modelled from the spec: `recompute(documentId)` recomputes
`retentionStartAt` and `deleteEligibleAt` from the policy and start-event
inputs; re-running it with unchanged inputs produces no new audit event and
no state change (spec §4.2). -/
def recompute (e : Engine) (docId : Nat) (policy : Policy)
    (startAt : Option Nat) (now : Nat) : Engine :=
  let eligible := startAt.map (fun t => t + policy.durationYears)
  let changed := e.schedules.any fun s =>
    decide (s.documentId = docId) &&
      !(decide (s.retentionPolicyId = policy.id) && decide (s.retentionStartAt = startAt) &&
        decide (s.deleteEligibleAt = eligible))
  let scheds := e.schedules.map fun s =>
    if s.documentId = docId then
      { s with retentionPolicyId := policy.id, retentionStartAt := startAt,
               deleteEligibleAt := eligible }
    else s
  if changed then appendEvent { e with schedules := scheds } 0 "retention.recomputed" docId now
  else { e with schedules := scheds }

/-- Modelled from the spec: `onHoldApplied(documentId)` transitions
`scheduled → paused_legal_hold`; no-op if already paused (spec §4.2). -/
def onHoldApplied (e : Engine) (docId : Nat) (now : Nat) : Engine :=
  let changed := e.schedules.any fun s =>
    decide (s.documentId = docId) && decide (s.status = .scheduled)
  let scheds := e.schedules.map fun s =>
    if s.documentId = docId ∧ s.status = .scheduled then { s with status := .pausedLegalHold }
    else s
  if changed then appendEvent { e with schedules := scheds } 0 "retention.paused" docId now
  else { e with schedules := scheds }

/-- Modelled from the spec: `onHoldReleased(documentId)` transitions
`paused_legal_hold → scheduled` only if zero remaining active targets
reference the document; otherwise no-op (spec §4.2). -/
def onHoldReleased (e : Engine) (docId : Nat) (now : Nat) : Engine :=
  let changed := (!hasActiveTarget e docId) &&
    e.schedules.any fun s =>
      decide (s.documentId = docId) && decide (s.status = .pausedLegalHold)
  let scheds := e.schedules.map fun s =>
    if s.documentId = docId ∧ s.status = .pausedLegalHold ∧ hasActiveTarget e docId = false
    then { s with status := .scheduled }
    else s
  if changed then appendEvent { e with schedules := scheds } 0 "retention.resumed" docId now
  else { e with schedules := scheds }

/-! ## Legal Hold Manager (spec §4.3) -/

/-- Modelled from the spec: pausing the schedules of a set of documents,
the batched form of calling `Scheduler.onHoldApplied` once per document
(spec §4.3; per-document calls commute since they touch only schedule
statuses). -/
def pauseDocs (scheds : List Schedule) (ds : List Nat) : List Schedule :=
  scheds.map fun s =>
    if s.documentId ∈ ds ∧ s.status = .scheduled then { s with status := .pausedLegalHold }
    else s

/-- Modelled from the spec: the ids of the documents of the current
population matched by any scope of the list (union semantics, spec §4.3). -/
def matchedDocs (e : Engine) (scopeList : List ScopeType) : List Nat :=
  (e.documents.filter fun d => scopeList.any fun sc => scopeMatches sc d).map
    (fun d => d.id)

/-- Modelled from the spec: insert-if-absent materialization of targets of
one hold for a list of document ids (unique constraint on document+hold,
spec §5). -/
def newHoldTargets (e : Engine) (hid : Nat) (ds : List Nat) : List Target :=
  (ds.filter fun d =>
      !(e.targets.any fun t => decide (t.legalHoldId = hid) && decide (t.documentId = d))).map
    fun d => ({ legalHoldId := hid, documentId := d } : Target)

/-- Modelled from the spec: `createHold(title, reason, scopes[])` persists
the hold in `active` status and its scopes, synchronously materializes
targets against the current document set (insert-if-absent per
(hold, document), spec §5), calls `Scheduler.onHoldApplied` for each
target, then emits `legal_hold.applied` (spec §4.3). -/
def createHold (e : Engine) (hid : Nat) (scopeList : List ScopeType)
    (createdBy : Nat) (now : Nat) : Engine :=
  appendEvent
    { e with
      holds := e.holds ++ [{ id := hid, status := .active, releasedAt := none, releasedBy := none }],
      scopes := e.scopes ++ scopeList.map (fun sc => { legalHoldId := hid, scope := sc }),
      targets := e.targets ++ newHoldTargets e hid (matchedDocs e scopeList),
      schedules := pauseDocs e.schedules (matchedDocs e scopeList) }
    createdBy "legal_hold.applied" hid now

/-- Modelled from the spec: the ids of the currently-active holds with a
scope matching the given document (spec §4.3). -/
def matchedHoldIds (e : Engine) (d : Document) : List Nat :=
  (e.holds.filter fun h =>
      decide (h.status = .active) && holdMatchesDoc e h.id d).map (fun h => h.id)

/-- Modelled from the spec: insert-if-absent materialization of targets of
several holds for one new document (spec §4.3, §5). -/
def newDocTargets (e : Engine) (hids : List Nat) (docId : Nat) : List Target :=
  (hids.filter fun hid =>
      !(e.targets.any fun t => decide (t.legalHoldId = hid) && decide (t.documentId = docId))).map
    fun hid => ({ legalHoldId := hid, documentId := docId } : Target)

/-- Modelled from the spec: `onDocumentCreated(documentId, ...)` evaluates
every currently-active hold's scopes against the new document; for each
match, creates a target (insert-if-absent) and calls
`Scheduler.onHoldApplied` (spec §4.3). -/
def onDocumentCreated (e : Engine) (d : Document) (now : Nat) : Engine :=
  appendEvent
    { e with
      documents := e.documents ++ [d],
      targets := e.targets ++ newDocTargets e (matchedHoldIds e d) d.id,
      schedules := if (matchedHoldIds e d).isEmpty then e.schedules
                   else pauseDocs e.schedules [d.id] }
    0 "document.received" d.id now

/-- Error outcomes of the boundary operations (spec §6, §7). -/
inductive EngineError
  | alreadyReleased
  | holdNotFound
deriving DecidableEq

/-- Modelled from the spec: resuming paused schedules of the given
documents when zero active targets remain, the batched form of calling
`Scheduler.onHoldReleased` once per document (spec §4.2–4.3). -/
def resumeDocs (e : Engine) (ds : List Nat) : List Schedule :=
  e.schedules.map fun s =>
    if s.documentId ∈ ds ∧ s.status = .pausedLegalHold ∧
        hasActiveTarget e s.documentId = false
    then { s with status := .scheduled }
    else s

/-- Modelled from the spec: marking every `legal_holds` row with the given
id as `released`, stamping `releasedAt` and `releasedBy` (spec §4.3). -/
def releaseHolds (holds : List Hold) (hid : Nat) (releasedBy : Nat) (now : Nat) :
    List Hold :=
  holds.map fun g =>
    if g.id = hid then
      { g with status := .released, releasedAt := some now, releasedBy := some releasedBy }
    else g

/-- Modelled from the spec: the ids of the documents targeted by a hold
(spec §4.3: "every document previously targeted by this hold"). -/
def targetedDocs (e : Engine) (hid : Nat) : List Nat :=
  (e.targets.filter fun t => decide (t.legalHoldId = hid)).map (fun t => t.documentId)

/-- Modelled from the spec: `releaseHold(holdId, releasedBy)` sets the hold
to `released` with `releasedAt`/`releasedBy`, removes no targets, then for
every document previously targeted by this hold calls
`Scheduler.onHoldReleased`; fails with `AlreadyReleased` if called twice
(spec §4.3, §6). -/
def releaseHold (e : Engine) (hid : Nat) (releasedBy : Nat) (now : Nat) :
    Except EngineError Engine :=
  match e.holds.find? (fun h => decide (h.id = hid)) with
  | none => .error .holdNotFound
  | some h =>
    if h.status = .released then .error .alreadyReleased
    else
      let e1 : Engine := { e with holds := releaseHolds e.holds hid releasedBy now }
      .ok (appendEvent { e1 with schedules := resumeDocs e1 (targetedDocs e hid) }
        releasedBy "legal_hold.released" hid now)

/-- Total wrapper around `releaseHold` used to state theorems about the
post-state: on error the durable store is untouched. -/
def releaseHoldRun (e : Engine) (hid : Nat) (releasedBy : Nat) (now : Nat) : Engine :=
  match releaseHold e hid releasedBy now with
  | .ok e1 => e1
  | .error _ => e

/-! ## Deletion Executor (spec §4.4) -/

/-- Modelled from the spec: a schedule is due and clear when its status is
`scheduled`, `deleteEligibleAt ≤ now`, and — re-verified immediately before
deleting — no active target references its document (spec §4.4). -/
def dueAndClear (e : Engine) (now : Nat) (s : Schedule) : Bool :=
  decide (s.status = .scheduled) &&
    (match s.deleteEligibleAt with
     | none => false
     | some t => decide (t ≤ now)) &&
    !hasActiveTarget e s.documentId

/-- Modelled from the spec: the document ids deleted by a sweep at the
given instant (spec §4.4 candidate selection plus the re-verification). -/
def sweepDeleted (e : Engine) (now : Nat) : List Nat :=
  (e.schedules.filter (dueAndClear e now)).map (fun s => s.documentId)

/-- Modelled from the spec: the recurring deletion sweep deletes the file
content of every due-and-clear schedule's document, writes a tombstone,
sets the schedule status to `deleted`, and emits `retention.executed`;
schedules with an active target are skipped (spec §4.4). Holds and targets
are never modified by the sweep, so the immediately-before re-check
`dueAndClear` reads the same hold state at selection and at deletion. -/
def sweep (e : Engine) (now : Nat) : Engine :=
  { e with
    schedules := e.schedules.map fun s =>
      if dueAndClear e now s then { s with status := .deleted } else s,
    documents := e.documents.filter fun d => decide (d.id ∉ sweepDeleted e now),
    tombstones := e.tombstones ++ (e.schedules.filter (dueAndClear e now)).map
      (fun s => { documentId := s.documentId, deletedAt := now,
                  policyId := s.retentionPolicyId }),
    ledger := e.ledger ++ (sweepDeleted e now).enum.map
      (fun p => { id := e.nextEventId + p.1, actorId := 0,
                  eventType := "retention.executed", entityId := p.2, createdAt := now }),
    nextEventId := e.nextEventId + (sweepDeleted e now).length }

/-! ## Policy Resolver (spec §4.1) -/

/-- Modelled from the spec: an org-level category override row (spec §4.1;
`document_categories.retention_policy_id` with an org policy,
src/datamodel.md lines 287–295). -/
structure CategoryOverride where
  orgId : Nat
  categoryId : Nat
  active : Bool
  policy : Policy
deriving DecidableEq

/-- Row of `state_retention_defaults` (src/datamodel.md lines 383–391). -/
structure StateDefault where
  stateCode : String
  effectiveDate : Nat
  policy : Policy
deriving DecidableEq

/-- Modelled from the spec: the configuration the resolver consults
(spec §4.1). -/
structure ResolverEnv where
  overrides : List CategoryOverride
  stateDefaults : List StateDefault
  systemFallback : Option Policy
deriving DecidableEq

/-- Error outcome of the resolver (spec §4.1, §6). -/
inductive ResolveError
  | noPolicyResolvable
deriving DecidableEq

/-- One step of the latest-row scan: keep the row with the later
`effectiveDate` (first row wins ties, matching the `effective_date desc`
index scan). -/
def laterOf (acc : Option StateDefault) (d : StateDefault) : Option StateDefault :=
  match acc with
  | none => some d
  | some m => if m.effectiveDate < d.effectiveDate then some d else acc

/-- Latest row by `effectiveDate` among a list of state defaults. -/
def pickLatest (l : List StateDefault) : Option StateDefault :=
  l.foldl laterOf none

/-- Modelled from the spec: lookup of a present-and-active org-level
category override (spec §4.1). -/
def findOverride (env : ResolverEnv) (categoryId : Nat) (orgId : Nat) :
    Option CategoryOverride :=
  env.overrides.find? (fun o =>
    decide (o.orgId = orgId) && decide (o.categoryId = categoryId) && o.active)

/-- Modelled from the spec: the state-default rows for the state whose
`effectiveDate` is on or before the as-of date (spec §3
StateRetentionDefault). -/
def applicableDefaults (env : ResolverEnv) (stateCode : String) (asOf : Nat) :
    List StateDefault :=
  env.stateDefaults.filter fun d =>
    decide (d.stateCode = stateCode) && decide (d.effectiveDate ≤ asOf)

/-- Modelled from the spec: `resolvePolicy(stateCode, categoryId, orgId,
asOf)` resolves org-level category override (if present and active) →
state default effective on or before the as-of date (latest such row) →
system fallback, and fails with `NoPolicyResolvable` otherwise
(spec §4.1, §3 StateRetentionDefault). -/
def resolvePolicy (env : ResolverEnv) (stateCode : String) (categoryId : Nat)
    (orgId : Nat) (asOf : Nat) : Except ResolveError Policy :=
  match findOverride env categoryId orgId with
  | some o => .ok o.policy
  | none =>
    match pickLatest (applicableDefaults env stateCode asOf) with
    | some d => .ok d.policy
    | none =>
      match env.systemFallback with
      | some p => .ok p
      | none => .error .noPolicyResolvable

/-! ## Stored-schema constraints on `legal_hold_targets`
(src/datamodel.md lines 451–464) -/

/-- Full row of `legal_hold_targets` including the tenant column
(src/datamodel.md lines 455–459). -/
structure TargetRow where
  orgId : Nat
  legalHoldId : Nat
  documentId : Nat
deriving DecidableEq

/-- The stored schema's unique index `(org_id, document_id)` on
`legal_hold_targets` (src/datamodel.md line 464): no two rows may share the
pair. -/
def schemaUniqueOk (rows : List TargetRow) : Bool :=
  decide (rows.Pairwise fun a b => ¬(a.orgId = b.orgId ∧ a.documentId = b.documentId))

/-- Uniqueness as the spec states it: per `(legalHoldId, documentId)` pair
within a tenant (spec §3 LegalHoldTarget). -/
def specUniqueOk (rows : List TargetRow) : Bool :=
  decide (rows.Pairwise fun a b =>
    ¬(a.orgId = b.orgId ∧ a.legalHoldId = b.legalHoldId ∧ a.documentId = b.documentId))

/-! ## FileUploader (src/frontend/components/file-uploader.tsx) -/

/-- The fields of a browser `File` that `validateFile` reads
(file-uploader.tsx lines 106–138): `name`, `type` (MIME type), `size` in
bytes. -/
structure UFile where
  name : String
  type : String
  size : Nat
deriving DecidableEq

/-- `UploadedFile.status` (file-uploader.tsx line 20). -/
inductive UploadStatus
  | pending
  | uploading
  | complete
  | error
deriving DecidableEq

/-- `UploadedFile` (file-uploader.tsx lines 17–22), without the transient
per-file error text, which the admission path never sets. -/
structure UploadedFile where
  file : UFile
  progress : Nat
  status : UploadStatus
deriving DecidableEq

/-- The component state `processFiles` reads and writes: the `files` list
and the `error` banner (file-uploader.tsx lines 88–90). -/
structure UploaderState where
  files : List UploadedFile
  error : Option String
deriving DecidableEq

/-- Character-list form of `String.prototype.startsWith`: does the first
list start with the second? (The built-in `String` scanners are opaque to
kernel reduction, so the string algorithms of file-uploader.tsx are
embedded structurally over `List Char`.) -/
def charsStartWith : List Char → List Char → Bool
  | _, [] => true
  | [], _ :: _ => false
  | a :: s, b :: p => decide (a = b) && charsStartWith s p

/-- Character-list form of `String.prototype.endsWith`. -/
def charsEndWith (s p : List Char) : Bool :=
  charsStartWith s.reverse p.reverse

/-- Character-list form of `accept.split(',')` (file-uploader.tsx
line 115). -/
def splitComma : List Char → List (List Char)
  | [] => [[]]
  | ch :: rest =>
    if ch = ',' then [] :: splitComma rest
    else
      match splitComma rest with
      | [] => [[ch]]
      | g :: gs => (ch :: g) :: gs

/-- Character-list form of `String.prototype.trim` (file-uploader.tsx
line 115). -/
def trimChars (cs : List Char) : List Char :=
  ((cs.dropWhile Char.isWhitespace).reverse.dropWhile Char.isWhitespace).reverse

/-- Character-list lowercasing, as in `toLowerCase()`. -/
def lowerChars (cs : List Char) : List Char :=
  cs.map Char.toLower

/-- The accepted-types check of `validateFile` (file-uploader.tsx lines
114–124): the accept string is split on commas and trimmed; a dot entry
matches by case-insensitive filename suffix, a `foo/*` entry matches MIME
types starting with `foo/` (`type.slice(0, -1)` drops the `*`), anything
else matches the MIME type exactly. -/
def typeAccepted (accept : String) (f : UFile) : Bool :=
  ((splitComma accept.data).map trimChars).any fun t =>
    if charsStartWith t ['.'] then charsEndWith (lowerChars f.name.data) (lowerChars t)
    else if charsEndWith t ['/', '*'] then charsStartWith f.type.data t.dropLast
    else decide (f.type.data = t)

/-- `validateFile` (file-uploader.tsx lines 106–138): custom validation
first, then the accepted-types check, then the size check, which rejects
only when `file.size > maxSize`. The size error text renders the byte
count directly where the component pretty-prints it. -/
def validateFile (validate : UFile → Option String) (accept : String)
    (maxSize : Nat) (f : UFile) : Option String :=
  match validate f with
  | some err => some err
  | none =>
    if !typeAccepted accept f then
      some ("File type not accepted. Please use: " ++ accept)
    else if f.size > maxSize then
      some ("File too large. Maximum size is " ++ toString maxSize)
    else none

/-- `processFiles` (file-uploader.tsx lines 140–217), the synchronous
admission path: clear the error banner, reject the whole batch when the
count limit would be exceeded, otherwise split the batch by `validateFile`,
set the error banner to the joined per-file errors when any file failed,
and append the valid files with status `pending` and progress `0`. The
asynchronous `onUpload` progress callbacks mutate state after admission and
are outside this model. -/
def processFiles (validate : UFile → Option String) (accept : String)
    (maxSize maxFiles : Nat) (st : UploaderState) (newFiles : List UFile) :
    UploaderState :=
  let st0 : UploaderState := { st with error := none }
  if st.files.length + newFiles.length > maxFiles then
    { st0 with error := some ("Maximum " ++ toString maxFiles ++ " files allowed") }
  else
    let valids := newFiles.filter fun f => (validateFile validate accept maxSize f).isNone
    let errs := newFiles.filterMap fun f =>
      (validateFile validate accept maxSize f).map (fun m => f.name ++ ": " ++ m)
    let st1 : UploaderState :=
      if errs.isEmpty then st0 else { st0 with error := some (String.intercalate "\n" errs) }
    if valids.isEmpty then st1
    else
      { st1 with
        files := st1.files ++ valids.map fun f =>
          { file := f, progress := 0, status := .pending } }

/-! ## Stated invariants -/

/-- The spec's state-machine invariant (spec §3 RetentionSchedule):
`status = paused_legal_hold` iff at least one active `LegalHoldTarget`
references the document. -/
def Inv (e : Engine) : Prop :=
  ∀ s ∈ e.schedules, (s.status = .pausedLegalHold ↔ hasActiveTarget e s.documentId = true)

instance (e : Engine) : Decidable (Inv e) := by
  unfold Inv
  infer_instance

/-- The retention fields a hold operation must never touch: document id,
`retentionStartAt` and `deleteEligibleAt` (spec §3 RetentionSchedule). -/
def schedTimes (s : Schedule) : Nat × Option Nat × Option Nat :=
  (s.documentId, s.retentionStartAt, s.deleteEligibleAt)

/-- The deadline invariant in its nullable reading, relative to an
assignment `dur` of duration to policy id: `deleteEligibleAt` is
`retentionStartAt + duration`, and null exactly while `retentionStartAt`
is null (spec §3 RetentionSchedule together with §4.2's pre-termination
null state). -/
def EligibleInv (dur : Nat → Nat) (e : Engine) : Prop :=
  ∀ s ∈ e.schedules,
    s.deleteEligibleAt = s.retentionStartAt.map (fun t => t + dur s.retentionPolicyId)

instance (dur : Nat → Nat) (e : Engine) : Decidable (EligibleInv dur e) := by
  unfold EligibleInv
  infer_instance

/-! ## Concrete states used by the witnesses -/

/-- A received-anchored 5-year policy. -/
def demoPolicy : Policy := { id := 1, durationYears := 5, startEvent := .received }

/-- A termination-anchored 5-year policy. -/
def termPolicy : Policy := { id := 3, durationYears := 5, startEvent := .termination }

/-- The empty tenant store. -/
def emptyEngine : Engine :=
  { documents := [], schedules := [], holds := [], scopes := [], targets := [],
    tombstones := [], ledger := [], nextEventId := 0 }

/-- A document of employee 2 in Engineering. -/
def demoDoc : Document :=
  { id := 5, employeeId := 2, department := "Engineering", categoryId := some 4,
    receivedAt := 10 }

/-- A store where document 5 is under two overlapping active holds (ids 1
and 2) and its schedule is paused. -/
def demoEngine : Engine :=
  { documents := [demoDoc],
    schedules := [{ documentId := 5, retentionPolicyId := 1, retentionStartAt := some 10,
                    deleteEligibleAt := some 15, status := .pausedLegalHold }],
    holds := [{ id := 1, status := .active, releasedAt := none, releasedBy := none },
              { id := 2, status := .active, releasedAt := none, releasedBy := none }],
    scopes := [{ legalHoldId := 1, scope := .employee 2 },
               { legalHoldId := 2, scope := .department "Engineering" }],
    targets := [{ legalHoldId := 1, documentId := 5 },
                { legalHoldId := 2, documentId := 5 }],
    tombstones := [], ledger := [], nextEventId := 0 }

/-- A store caught between sweep selection and hold creation: document 5's
schedule is still `scheduled` and past its deadline, but an active hold
target now references it. -/
def heldEngine : Engine :=
  { documents := [demoDoc],
    schedules := [{ documentId := 5, retentionPolicyId := 1, retentionStartAt := some 10,
                    deleteEligibleAt := some 15, status := .scheduled }],
    holds := [{ id := 1, status := .active, releasedAt := none, releasedBy := none }],
    scopes := [{ legalHoldId := 1, scope := .employee 2 }],
    targets := [{ legalHoldId := 1, documentId := 5 }],
    tombstones := [], ledger := [], nextEventId := 0 }

/-- A valid PDF upload at exactly the default size limit boundary probe
size. -/
def demoFile : UFile := { name := "w4.pdf", type := "application/pdf", size := 10 }

/-- An active org-level category override for org 1, category 4. -/
def demoOverride : CategoryOverride :=
  { orgId := 1, categoryId := 4, active := true, policy := demoPolicy }

/-- An older Florida state default. -/
def demoDefault1 : StateDefault :=
  { stateCode := "FL", effectiveDate := 3, policy := demoPolicy }

/-- A newer Florida state default. -/
def demoDefault2 : StateDefault :=
  { stateCode := "FL", effectiveDate := 7, policy := termPolicy }

/-- Resolver configuration with an active override, state history and a
fallback. -/
def demoResolverEnv : ResolverEnv :=
  { overrides := [demoOverride], stateDefaults := [demoDefault1, demoDefault2],
    systemFallback := some demoPolicy }

/-- Resolver configuration with state history only. -/
def stateResolverEnv : ResolverEnv :=
  { overrides := [], stateDefaults := [demoDefault1, demoDefault2],
    systemFallback := none }

/-- Resolver configuration with only the system fallback. -/
def fallbackResolverEnv : ResolverEnv :=
  { overrides := [], stateDefaults := [], systemFallback := some demoPolicy }

/-- Resolver configuration with nothing seeded. -/
def bareResolverEnv : ResolverEnv :=
  { overrides := [], stateDefaults := [], systemFallback := none }

/-- A query filter on entity 5. -/
def demoFilters : AuditFilters :=
  { entityId := some 5, actorId := none, dateFrom := none, dateTo := none,
    eventType := none }

/-- A small unordered ledger for query witnesses. -/
def demoLedger : List AuditEvent :=
  [{ id := 2, actorId := 0, eventType := "retention.scheduled", entityId := 5,
     createdAt := 30 },
   { id := 1, actorId := 0, eventType := "document.received", entityId := 5,
     createdAt := 10 },
   { id := 3, actorId := 4, eventType := "legal_hold.applied", entityId := 6,
     createdAt := 20 }]

/-! ## Helper lemmas: lists -/

theorem map_self_of {α : Type} {f : α → α} {l : List α} (h : ∀ x ∈ l, f x = x) :
    l.map f = l := by
  induction l with
  | nil => rfl
  | cons a t ih =>
    simp only [List.map_cons, List.cons.injEq]
    exact ⟨h a (List.mem_cons_self a t), ih fun x hx => h x (List.mem_cons_of_mem a hx)⟩

theorem map_comp_self_of {α β : Type} {f : α → α} {g : α → β} {l : List α}
    (h : ∀ x ∈ l, g (f x) = g x) : (l.map f).map g = l.map g := by
  induction l with
  | nil => rfl
  | cons a t ih =>
    simp only [List.map_cons, List.cons.injEq]
    exact ⟨h a (List.mem_cons_self a t), ih fun x hx => h x (List.mem_cons_of_mem a hx)⟩

/-! ## Helper lemmas: field projections of the engine operations -/

theorem appendEvent_documents (e : Engine) (a : Nat) (ty : String) (x t : Nat) :
    (appendEvent e a ty x t).documents = e.documents := rfl

theorem appendEvent_schedules (e : Engine) (a : Nat) (ty : String) (x t : Nat) :
    (appendEvent e a ty x t).schedules = e.schedules := rfl

theorem appendEvent_holds (e : Engine) (a : Nat) (ty : String) (x t : Nat) :
    (appendEvent e a ty x t).holds = e.holds := rfl

theorem appendEvent_targets (e : Engine) (a : Nat) (ty : String) (x t : Nat) :
    (appendEvent e a ty x t).targets = e.targets := rfl

theorem createSchedule_schedules (e : Engine) (docId : Nat) (p : Policy)
    (st : Option Nat) (t : Nat) :
    (createSchedule e docId p st t).schedules = e.schedules ++
      [{ documentId := docId, retentionPolicyId := p.id, retentionStartAt := st,
         deleteEligibleAt := st.map (fun x => x + p.durationYears),
         status := .scheduled }] := rfl

theorem createSchedule_targets (e : Engine) (docId : Nat) (p : Policy)
    (st : Option Nat) (t : Nat) : (createSchedule e docId p st t).targets = e.targets := rfl

theorem createSchedule_holds (e : Engine) (docId : Nat) (p : Policy)
    (st : Option Nat) (t : Nat) : (createSchedule e docId p st t).holds = e.holds := rfl

theorem recompute_schedules (e : Engine) (docId : Nat) (p : Policy)
    (st : Option Nat) (t : Nat) :
    (recompute e docId p st t).schedules = e.schedules.map fun s =>
      if s.documentId = docId then
        { s with retentionPolicyId := p.id, retentionStartAt := st,
                 deleteEligibleAt := st.map (fun x => x + p.durationYears) }
      else s := by
  simp only [recompute]
  split <;> rfl

theorem recompute_targets (e : Engine) (docId : Nat) (p : Policy)
    (st : Option Nat) (t : Nat) : (recompute e docId p st t).targets = e.targets := by
  simp only [recompute]
  split <;> rfl

theorem recompute_holds (e : Engine) (docId : Nat) (p : Policy)
    (st : Option Nat) (t : Nat) : (recompute e docId p st t).holds = e.holds := by
  simp only [recompute]
  split <;> rfl

theorem onHoldApplied_schedules (e : Engine) (docId t : Nat) :
    (onHoldApplied e docId t).schedules = e.schedules.map fun s =>
      if s.documentId = docId ∧ s.status = .scheduled then { s with status := .pausedLegalHold }
      else s := by
  simp only [onHoldApplied]
  split <;> rfl

theorem onHoldApplied_targets (e : Engine) (docId t : Nat) :
    (onHoldApplied e docId t).targets = e.targets := by
  simp only [onHoldApplied]
  split <;> rfl

theorem onHoldApplied_holds (e : Engine) (docId t : Nat) :
    (onHoldApplied e docId t).holds = e.holds := by
  simp only [onHoldApplied]
  split <;> rfl

theorem onHoldReleased_schedules (e : Engine) (docId t : Nat) :
    (onHoldReleased e docId t).schedules = e.schedules.map fun s =>
      if s.documentId = docId ∧ s.status = .pausedLegalHold ∧
          hasActiveTarget e docId = false
      then { s with status := .scheduled }
      else s := by
  simp only [onHoldReleased]
  split <;> rfl

theorem onHoldReleased_targets (e : Engine) (docId t : Nat) :
    (onHoldReleased e docId t).targets = e.targets := by
  simp only [onHoldReleased]
  split <;> rfl

theorem onHoldReleased_holds (e : Engine) (docId t : Nat) :
    (onHoldReleased e docId t).holds = e.holds := by
  simp only [onHoldReleased]
  split <;> rfl

theorem createHold_schedules (e : Engine) (hid : Nat) (scl : List ScopeType)
    (cb t : Nat) :
    (createHold e hid scl cb t).schedules = pauseDocs e.schedules (matchedDocs e scl) := rfl

theorem createHold_targets (e : Engine) (hid : Nat) (scl : List ScopeType)
    (cb t : Nat) :
    (createHold e hid scl cb t).targets =
      e.targets ++ newHoldTargets e hid (matchedDocs e scl) := rfl

theorem createHold_holds (e : Engine) (hid : Nat) (scl : List ScopeType)
    (cb t : Nat) :
    (createHold e hid scl cb t).holds =
      e.holds ++ [{ id := hid, status := .active, releasedAt := none, releasedBy := none }] := rfl

theorem onDocumentCreated_schedules (e : Engine) (d : Document) (t : Nat) :
    (onDocumentCreated e d t).schedules =
      if (matchedHoldIds e d).isEmpty then e.schedules
      else pauseDocs e.schedules [d.id] := rfl

theorem onDocumentCreated_targets (e : Engine) (d : Document) (t : Nat) :
    (onDocumentCreated e d t).targets =
      e.targets ++ newDocTargets e (matchedHoldIds e d) d.id := rfl

theorem onDocumentCreated_holds (e : Engine) (d : Document) (t : Nat) :
    (onDocumentCreated e d t).holds = e.holds := rfl

theorem sweep_schedules (e : Engine) (t : Nat) :
    (sweep e t).schedules = e.schedules.map fun s =>
      if dueAndClear e t s then { s with status := .deleted } else s := rfl

theorem sweep_targets (e : Engine) (t : Nat) : (sweep e t).targets = e.targets := rfl

theorem sweep_holds (e : Engine) (t : Nat) : (sweep e t).holds = e.holds := rfl

/-! ## Helper lemmas: active-target characterizations -/

theorem listHoldActive_iff {holds : List Hold} {hid : Nat} :
    listHoldActive holds hid = true ↔ ∃ h ∈ holds, h.id = hid ∧ h.status = .active := by
  simp [listHoldActive, List.any_eq_true]

theorem listActiveTarget_iff {targets : List Target} {holds : List Hold} {d : Nat} :
    listActiveTarget targets holds d = true ↔
      ∃ t ∈ targets, t.documentId = d ∧ listHoldActive holds t.legalHoldId = true := by
  simp [listActiveTarget, List.any_eq_true]

theorem hasActiveTarget_iff {e : Engine} {d : Nat} :
    hasActiveTarget e d = true ↔
      ∃ t ∈ e.targets, t.documentId = d ∧ listHoldActive e.holds t.legalHoldId = true :=
  listActiveTarget_iff

theorem hasActiveTarget_onHoldApplied (e : Engine) (docId t x : Nat) :
    hasActiveTarget (onHoldApplied e docId t) x = hasActiveTarget e x := by
  unfold hasActiveTarget
  rw [onHoldApplied_targets, onHoldApplied_holds]

theorem hasActiveTarget_onHoldReleased (e : Engine) (docId t x : Nat) :
    hasActiveTarget (onHoldReleased e docId t) x = hasActiveTarget e x := by
  unfold hasActiveTarget
  rw [onHoldReleased_targets, onHoldReleased_holds]

theorem hasActiveTarget_createSchedule (e : Engine) (docId : Nat) (p : Policy)
    (st : Option Nat) (t x : Nat) :
    hasActiveTarget (createSchedule e docId p st t) x = hasActiveTarget e x := by
  unfold hasActiveTarget
  rw [createSchedule_targets, createSchedule_holds]

theorem hasActiveTarget_sweep (e : Engine) (t x : Nat) :
    hasActiveTarget (sweep e t) x = hasActiveTarget e x := by
  unfold hasActiveTarget
  rw [sweep_targets, sweep_holds]

theorem listHoldActive_append_active (hs : List Hold) (hid k : Nat) :
    listHoldActive
        (hs ++ [{ id := hid, status := .active, releasedAt := none, releasedBy := none }]) k =
      (listHoldActive hs k || decide (k = hid)) := by
  simp only [listHoldActive, List.any_append, List.any_cons, List.any_nil]
  simp [@eq_comm Nat hid k]

theorem listHoldActive_releaseHolds (hs : List Hold) (hid rb now k : Nat) :
    listHoldActive (releaseHolds hs hid rb now) k =
      (decide (¬k = hid) && listHoldActive hs k) := by
  rw [Bool.eq_iff_iff]
  simp only [Bool.and_eq_true, decide_eq_true_eq, listHoldActive_iff, releaseHolds,
    List.mem_map]
  constructor
  · rintro ⟨g, ⟨g0, g0mem, rfl⟩, hk, hact⟩
    by_cases hg : g0.id = hid
    · rw [if_pos hg] at hact
      exact absurd hact (by simp)
    · rw [if_neg hg] at hk hact
      exact ⟨by rw [← hk]; exact hg, g0, g0mem, hk, hact⟩
  · rintro ⟨hk, g0, g0mem, hidk, hact⟩
    refine ⟨g0, ⟨g0, g0mem, ?_⟩, hidk, hact⟩
    rw [if_neg (by rw [hidk]; exact fun hh => hk hh)]

theorem newHoldTargets_mem {e : Engine} {hid : Nat} {ds : List Nat} {tg : Target} :
    tg ∈ newHoldTargets e hid ds ↔
      tg.legalHoldId = hid ∧ tg.documentId ∈ ds ∧
        ¬∃ t' ∈ e.targets, t'.legalHoldId = hid ∧ t'.documentId = tg.documentId := by
  simp only [newHoldTargets, List.mem_map, List.mem_filter, Bool.not_eq_true',
    List.any_eq_false, Bool.and_eq_true, decide_eq_true_eq]
  constructor
  · rintro ⟨d, ⟨hd, habs⟩, rfl⟩
    refine ⟨rfl, hd, ?_⟩
    rintro ⟨t', ht', h1, h2⟩
    have := habs t' ht'
    simp [h1, h2] at this
  · rintro ⟨h1, h2, habs⟩
    refine ⟨tg.documentId, ⟨h2, ?_⟩, ?_⟩
    · intro t' ht'
      by_cases ha : t'.legalHoldId = hid
      · by_cases hb : t'.documentId = tg.documentId
        · exact absurd ⟨t', ht', ha, hb⟩ habs
        · simp [hb]
      · simp [ha]
    · cases tg
      simp_all

theorem newDocTargets_mem {e : Engine} {hids : List Nat} {docId : Nat} {tg : Target} :
    tg ∈ newDocTargets e hids docId ↔
      tg.documentId = docId ∧ tg.legalHoldId ∈ hids ∧
        ¬∃ t' ∈ e.targets, t'.legalHoldId = tg.legalHoldId ∧ t'.documentId = docId := by
  simp only [newDocTargets, List.mem_map, List.mem_filter, Bool.not_eq_true',
    List.any_eq_false, Bool.and_eq_true, decide_eq_true_eq]
  constructor
  · rintro ⟨hid, ⟨hh, habs⟩, rfl⟩
    refine ⟨rfl, hh, ?_⟩
    rintro ⟨t', ht', h1, h2⟩
    have := habs t' ht'
    simp [h1, h2] at this
  · rintro ⟨h1, h2, habs⟩
    refine ⟨tg.legalHoldId, ⟨h2, ?_⟩, ?_⟩
    · intro t' ht'
      by_cases ha : t'.legalHoldId = tg.legalHoldId
      · by_cases hb : t'.documentId = docId
        · exact absurd ⟨t', ht', ha, hb⟩ habs
        · simp [hb]
      · simp [ha]
    · cases tg
      simp_all

theorem targetedDocs_mem {e : Engine} {hid x : Nat} :
    x ∈ targetedDocs e hid ↔
      ∃ tg ∈ e.targets, tg.legalHoldId = hid ∧ tg.documentId = x := by
  simp only [targetedDocs, List.mem_map, List.mem_filter, decide_eq_true_eq]
  constructor
  · rintro ⟨tg, ⟨hm, hh⟩, rfl⟩
    exact ⟨tg, hm, hh, rfl⟩
  · rintro ⟨tg, hm, hh, rfl⟩
    exact ⟨tg, ⟨hm, hh⟩, rfl⟩

theorem matchedHoldIds_mem {e : Engine} {d : Document} {k : Nat} :
    k ∈ matchedHoldIds e d ↔
      ∃ h ∈ e.holds, h.id = k ∧ h.status = .active ∧ holdMatchesDoc e h.id d = true := by
  simp only [matchedHoldIds, List.mem_map, List.mem_filter, Bool.and_eq_true,
    decide_eq_true_eq]
  constructor
  · rintro ⟨h, ⟨hm, hs, hmt⟩, rfl⟩
    exact ⟨h, hm, rfl, hs, hmt⟩
  · rintro ⟨h, hm, rfl, hs, hmt⟩
    exact ⟨h, ⟨hm, hs, hmt⟩, rfl⟩

theorem hasActiveTarget_createHold (e : Engine) (hid : Nat) (scl : List ScopeType)
    (cb t x : Nat) (hFresh : ∀ tg ∈ e.targets, tg.legalHoldId ≠ hid) :
    hasActiveTarget (createHold e hid scl cb t) x =
      (hasActiveTarget e x || decide (x ∈ matchedDocs e scl)) := by
  rw [Bool.eq_iff_iff]
  unfold hasActiveTarget
  rw [createHold_targets, createHold_holds]
  simp only [Bool.or_eq_true, decide_eq_true_eq, listActiveTarget_iff, List.mem_append]
  constructor
  · rintro ⟨tg, hm | hm, hdoc, hact⟩
    · rw [listHoldActive_append_active, Bool.or_eq_true, decide_eq_true_eq] at hact
      rcases hact with hact | hact
      · exact Or.inl ⟨tg, hm, hdoc, hact⟩
      · exact absurd hact (hFresh tg hm)
    · rw [newHoldTargets_mem] at hm
      exact Or.inr (hdoc ▸ hm.2.1)
  · rintro (⟨tg, hm, hdoc, hact⟩ | hx)
    · refine ⟨tg, Or.inl hm, hdoc, ?_⟩
      rw [listHoldActive_append_active, hact, Bool.true_or]
    · refine ⟨⟨hid, x⟩, Or.inr ?_, rfl, ?_⟩
      · rw [newHoldTargets_mem]
        refine ⟨rfl, hx, ?_⟩
        rintro ⟨t', ht', h1, _⟩
        exact hFresh t' ht' h1
      · rw [listHoldActive_append_active]
        simp

theorem hasActiveTarget_onDocumentCreated_ne (e : Engine) (d : Document) (t x : Nat)
    (hx : x ≠ d.id) :
    hasActiveTarget (onDocumentCreated e d t) x = hasActiveTarget e x := by
  rw [Bool.eq_iff_iff]
  unfold hasActiveTarget
  rw [onDocumentCreated_targets, onDocumentCreated_holds]
  simp only [listActiveTarget_iff, List.mem_append]
  constructor
  · rintro ⟨tg, hm | hm, hdoc, hact⟩
    · exact ⟨tg, hm, hdoc, hact⟩
    · rw [newDocTargets_mem] at hm
      exact absurd (hdoc ▸ hm.1) hx
  · rintro ⟨tg, hm, hdoc, hact⟩
    exact ⟨tg, Or.inl hm, hdoc, hact⟩

theorem hasActiveTarget_onDocumentCreated_self (e : Engine) (d : Document) (t : Nat) :
    hasActiveTarget (onDocumentCreated e d t) d.id =
      (hasActiveTarget e d.id || !(matchedHoldIds e d).isEmpty) := by
  rw [Bool.eq_iff_iff]
  unfold hasActiveTarget
  rw [onDocumentCreated_targets, onDocumentCreated_holds]
  simp only [Bool.or_eq_true, Bool.not_eq_true', List.isEmpty_eq_false_iff_exists_mem,
    listActiveTarget_iff, List.mem_append]
  constructor
  · rintro ⟨tg, hm | hm, hdoc, hact⟩
    · exact Or.inl ⟨tg, hm, hdoc, hact⟩
    · rw [newDocTargets_mem] at hm
      exact Or.inr ⟨tg.legalHoldId, hm.2.1⟩
  · rintro (⟨tg, hm, hdoc, hact⟩ | ⟨k, hk⟩)
    · exact ⟨tg, Or.inl hm, hdoc, hact⟩
    · have hkact : listHoldActive e.holds k = true := by
        rw [listHoldActive_iff]
        rcases matchedHoldIds_mem.mp hk with ⟨h, hm, hidk, hs, _⟩
        exact ⟨h, hm, hidk, hs⟩
      by_cases hpre : ∃ t' ∈ e.targets, t'.legalHoldId = k ∧ t'.documentId = d.id
      · rcases hpre with ⟨t', ht', h1, h2⟩
        exact ⟨t', Or.inl ht', h2, h1 ▸ hkact⟩
      · refine ⟨⟨k, d.id⟩, Or.inr ?_, rfl, hkact⟩
        rw [newDocTargets_mem]
        exact ⟨rfl, hk, hpre⟩

theorem releaseHold_ok (e : Engine) (hid u t : Nat) (e' : Engine)
    (hok : releaseHold e hid u t = .ok e') :
    e'.holds = releaseHolds e.holds hid u t ∧
    e'.targets = e.targets ∧
    e'.schedules =
      resumeDocs { e with holds := releaseHolds e.holds hid u t } (targetedDocs e hid) ∧
    (∃ h0 ∈ e.holds, h0.id = hid ∧ h0.status = .active) ∧
    (∃ tail, e'.ledger = e.ledger ++ tail) := by
  unfold releaseHold at hok
  cases hfind : e.holds.find? (fun h => decide (h.id = hid)) with
  | none => rw [hfind] at hok; exact absurd hok (by simp)
  | some h0 =>
    rw [hfind] at hok
    dsimp only at hok
    by_cases hrel : h0.status = .released
    · rw [if_pos hrel] at hok
      exact absurd hok (by simp)
    · rw [if_neg hrel] at hok
      have he' : e' = _ := (Except.ok.inj hok).symm
      have hmem := List.mem_of_find?_eq_some hfind
      have hpid : h0.id = hid := by
        have := List.find?_some hfind
        simpa using this
      have hact : h0.status = .active := by
        cases hs : h0.status
        · rfl
        · exact absurd hs hrel
      refine ⟨?_, ?_, ?_, ⟨h0, hmem, hpid, hact⟩, ?_⟩
      · rw [he']; rfl
      · rw [he']; rfl
      · rw [he']; rfl
      · exact ⟨_, by rw [he']; rfl⟩

theorem releaseHold_is_ok (e : Engine) (hid u t : Nat)
    (hmem : ∃ h0 ∈ e.holds, h0.id = hid)
    (hact : ∀ h0 ∈ e.holds, h0.id = hid → h0.status = .active) :
    releaseHold e hid u t = .ok (releaseHoldRun e hid u t) := by
  cases hfind : e.holds.find? (fun h => decide (h.id = hid)) with
  | none =>
    rw [List.find?_eq_none] at hfind
    rcases hmem with ⟨h0, hm, hh⟩
    exact absurd (by simpa using hh) (hfind h0 hm)
  | some h0 =>
    have hm := List.mem_of_find?_eq_some hfind
    have hid0 : h0.id = hid := by simpa using List.find?_some hfind
    have hs := hact h0 hm hid0
    have hno : ¬h0.status = .released := by rw [hs]; simp
    have : releaseHold e hid u t =
        .ok (appendEvent
          { { e with holds := releaseHolds e.holds hid u t } with
            schedules := resumeDocs { e with holds := releaseHolds e.holds hid u t }
              (targetedDocs e hid) } u "legal_hold.released" hid t) := by
      unfold releaseHold
      rw [hfind]
      dsimp only
      rw [if_neg hno]
    rw [this]
    unfold releaseHoldRun
    rw [this]

/-! ## Claim theorems -/

/-- C3: under the stored schema of `legal_hold_targets`
(src/datamodel.md lines 451–464) the unique index is on
`(org_id, document_id)`, so the two targets that the spec's per
`(legalHoldId, documentId)` uniqueness admits for one document under two
distinct holds — rows (org 1, hold 1, doc 5) and (org 1, hold 2, doc 5) —
violate the stored constraint: a single document cannot carry targets from
multiple holds simultaneously, although the file's own ERD
(`documents ||--o\x7b legal_hold_targets`) and the overlapping-hold design
require exactly that. -/
theorem legal_hold_targets_index_conflict :
    specUniqueOk [⟨1, 1, 5⟩, ⟨1, 2, 5⟩] = true ∧
    schemaUniqueOk [⟨1, 1, 5⟩, ⟨1, 2, 5⟩] = false := by
  decide

/-- C10: `processFiles` admission is all-or-nothing on the count limit:
when the already-selected files plus the new batch exceed `maxFiles`, no
file is added and the error banner is set; otherwise every file passing
`validateFile` is appended with status `pending` and progress `0`; and for
a file passing custom validation and the type check, `validateFile`
accepts exactly the sizes `≤ maxSize` (a file of exactly `maxSize` is
accepted). -/
theorem processFiles_admission (validate : UFile → Option String) (accept : String)
    (maxSize maxFiles : Nat) (st : UploaderState) (newFiles : List UFile) :
    (st.files.length + newFiles.length > maxFiles →
      (processFiles validate accept maxSize maxFiles st newFiles).files = st.files ∧
      (processFiles validate accept maxSize maxFiles st newFiles).error =
        some ("Maximum " ++ toString maxFiles ++ " files allowed")) ∧
    (st.files.length + newFiles.length ≤ maxFiles →
      (processFiles validate accept maxSize maxFiles st newFiles).files =
        st.files ++
          (newFiles.filter fun f => (validateFile validate accept maxSize f).isNone).map
            (fun f => { file := f, progress := 0, status := .pending })) ∧
    (∀ f : UFile, validate f = none → typeAccepted accept f = true →
      ((validateFile validate accept maxSize f = none) ↔ f.size ≤ maxSize)) := by
  refine ⟨?_, ?_, ?_⟩
  · intro h
    simp only [processFiles]
    rw [if_pos h]
    exact ⟨rfl, rfl⟩
  · intro h
    simp only [processFiles]
    rw [if_neg (by omega)]
    by_cases hv : (newFiles.filter fun f =>
        (validateFile validate accept maxSize f).isNone).isEmpty
    · rw [if_pos hv]
      split <;> simp [List.isEmpty_iff.mp hv]
    · rw [if_neg hv]
      split <;> simp
  · intro f h1 h2
    unfold validateFile
    rw [h1]
    dsimp only
    rw [if_neg (by rw [h2]; simp)]
    constructor
    · intro hnone
      by_contra hgt
      rw [if_pos (by omega)] at hnone
      exact absurd hnone (by simp)
    · intro hle
      rw [if_neg (by omega)]

/-- Witness for C10 at concrete inputs: a full batch is refused outright, an
admissible batch lands as `pending` files, and a PDF of exactly the size
limit passes validation. -/
theorem processFiles_admission_witness :
    (processFiles (fun _ => none) ".pdf,image/*" 10 0 { files := [], error := none }
        [demoFile]).files = ({ files := [], error := none } : UploaderState).files ∧
    (processFiles (fun _ => none) ".pdf,image/*" 10 5 { files := [], error := none }
        [demoFile]).files =
      ({ files := [], error := none } : UploaderState).files ++
        (([demoFile].filter fun f =>
            (validateFile (fun _ => none) ".pdf,image/*" 10 f).isNone).map
          (fun f => { file := f, progress := 0, status := .pending })) ∧
    ((validateFile (fun _ => none) ".pdf,image/*" 10 demoFile = none) ↔
      demoFile.size ≤ 10) :=
  ⟨((processFiles_admission (fun _ => none) ".pdf,image/*" 10 0
      { files := [], error := none } [demoFile]).1 (by decide)).1,
   (processFiles_admission (fun _ => none) ".pdf,image/*" 10 5
      { files := [], error := none } [demoFile]).2.1 (by decide),
   (processFiles_admission (fun _ => none) ".pdf,image/*" 10 5
      { files := [], error := none } [demoFile]).2.2 demoFile rfl (by decide)⟩

/-- C1: the deletion sweep maps every schedule through a step that flips
status to `deleted` only when `dueAndClear` holds, and `dueAndClear`
re-checks `hasActiveTarget` immediately before the flip, so a schedule
whose document has an active legal-hold target is never transitioned to
`deleted` and is left untouched by the sweep. -/
theorem sweep_no_premature_deletion (e : Engine) (now : Nat) :
    (sweep e now).schedules = e.schedules.map
        (fun s => if dueAndClear e now s then { s with status := ScheduleStatus.deleted }
         else s) ∧
    ∀ s ∈ e.schedules, hasActiveTarget e s.documentId = true →
      dueAndClear e now s = false ∧
        (if dueAndClear e now s then { s with status := ScheduleStatus.deleted } else s)
          = s := by
  refine ⟨sweep_schedules e now, fun s _ hat => ?_⟩
  have hdc : dueAndClear e now s = false := by
    unfold dueAndClear
    rw [hat]
    simp
  exact ⟨hdc, by rw [if_neg (by simp [hdc])]⟩

/-- Witness for C1: in `heldEngine` the schedule of document 5 is past its
deadline but held; the sweep at time 100 does not delete it. -/
theorem sweep_no_premature_deletion_witness :
    hasActiveTarget heldEngine 5 = true ∧
    dueAndClear heldEngine 100
      { documentId := 5, retentionPolicyId := 1, retentionStartAt := some 10,
        deleteEligibleAt := some 15, status := .scheduled } = false :=
  ⟨by decide,
   ((sweep_no_premature_deletion heldEngine 100).2
      { documentId := 5, retentionPolicyId := 1, retentionStartAt := some 10,
        deleteEligibleAt := some 15, status := .scheduled }
      (by decide) (by decide)).1⟩

/-- C7: `recompute` is idempotent: a second run with the same policy and
start-event inputs leaves the whole engine state — schedules and audit
ledger included — exactly as after the first run. -/
theorem recompute_idempotent (e : Engine) (docId : Nat) (p : Policy)
    (st : Option Nat) (t1 t2 : Nat) :
    recompute (recompute e docId p st t1) docId p st t2 =
      recompute e docId p st t1 := by
  set E := recompute e docId p st t1 with hE
  have hfields : ∀ s ∈ E.schedules, s.documentId = docId →
      s.retentionPolicyId = p.id ∧ s.retentionStartAt = st ∧
        s.deleteEligibleAt = st.map (fun x => x + p.durationYears) := by
    rw [hE, recompute_schedules]
    intro s hs hdoc
    rcases List.mem_map.mp hs with ⟨s0, _, rfl⟩
    by_cases h0 : s0.documentId = docId
    · rw [if_pos h0]
      exact ⟨rfl, rfl, rfl⟩
    · rw [if_neg h0] at hdoc
      exact absurd hdoc h0
  have hmap : (E.schedules.map fun s =>
      if s.documentId = docId then
        { s with retentionPolicyId := p.id, retentionStartAt := st,
                 deleteEligibleAt := st.map (fun x => x + p.durationYears) }
      else s) = E.schedules := by
    refine map_self_of fun s hs => ?_
    by_cases h0 : s.documentId = docId
    · rw [if_pos h0]
      rcases hfields s hs h0 with ⟨h1, h2, h3⟩
      rw [← h3, ← h1, ← h2]
    · rw [if_neg h0]
  show recompute E docId p st t2 = E
  simp only [recompute]
  split
  next hcond =>
    exfalso
    rw [List.any_eq_true] at hcond
    rcases hcond with ⟨s, hs, hp⟩
    rw [Bool.and_eq_true, decide_eq_true_eq, Bool.not_eq_true'] at hp
    obtain ⟨hdoc, hne⟩ := hp
    rcases hfields s hs hdoc with ⟨h1, h2, h3⟩
    simp [h1, h2, h3] at hne
  next hcond =>
    rw [hmap]

/-- C5 counterexample: a schedule created under a termination-anchored
policy for a not-yet-terminated employee is `scheduled` with
`retentionStartAt` and `deleteEligibleAt` both null, so the claim's
unconditional equation `deleteEligibleAt = retentionStartAt +
policy.durationYears` (a defined timestamp, as the non-nullable stored
column requires) does not hold for it. -/
theorem deleteEligibleAt_pending_null :
    ∃ s ∈ (createSchedule emptyEngine 7 termPolicy none 0).schedules,
      s.status = .scheduled ∧ s.retentionStartAt = none ∧
        s.deleteEligibleAt = none := by
  decide

/-- C5 amended: in the nullable reading, every schedule satisfies
`deleteEligibleAt = retentionStartAt.map (+ duration)` — null exactly while
the start event is pending — and the equation is established by
`createSchedule`, re-established by `recompute`, and the retention fields
`(documentId, retentionStartAt, deleteEligibleAt)` are never changed by
hold application, hold release, hold creation, document-driven
materialization, or `releaseHold`. -/
theorem deleteEligibleAt_discipline (dur : Nat → Nat) (e : Engine)
    (hInv : EligibleInv dur e) :
    (∀ docId p st now, dur p.id = p.durationYears →
        EligibleInv dur (createSchedule e docId p st now)) ∧
    (∀ docId p st now, dur p.id = p.durationYears →
        EligibleInv dur (recompute e docId p st now)) ∧
    (∀ docId now, (onHoldApplied e docId now).schedules.map schedTimes =
        e.schedules.map schedTimes) ∧
    (∀ docId now, (onHoldReleased e docId now).schedules.map schedTimes =
        e.schedules.map schedTimes) ∧
    (∀ hid scl cb now, (createHold e hid scl cb now).schedules.map schedTimes =
        e.schedules.map schedTimes) ∧
    (∀ d now, (onDocumentCreated e d now).schedules.map schedTimes =
        e.schedules.map schedTimes) ∧
    (∀ hid u now e', releaseHold e hid u now = .ok e' →
        e'.schedules.map schedTimes = e.schedules.map schedTimes) := by
  refine ⟨?_, ?_, ?_, ?_, ?_, ?_, ?_⟩
  · intro docId p st now hdur
    unfold EligibleInv
    rw [createSchedule_schedules]
    intro s hs
    rcases List.mem_append.mp hs with hs | hs
    · exact hInv s hs
    · rcases List.mem_singleton.mp hs with rfl
      simp [hdur]
  · intro docId p st now hdur
    unfold EligibleInv
    rw [recompute_schedules]
    intro s hs
    rcases List.mem_map.mp hs with ⟨s0, hs0, rfl⟩
    by_cases h0 : s0.documentId = docId
    · rw [if_pos h0]
      simp [hdur]
    · rw [if_neg h0]
      exact hInv s0 hs0
  · intro docId now
    rw [onHoldApplied_schedules]
    refine map_comp_self_of fun s _ => ?_
    split <;> rfl
  · intro docId now
    rw [onHoldReleased_schedules]
    refine map_comp_self_of fun s _ => ?_
    split <;> rfl
  · intro hid scl cb now
    rw [createHold_schedules]
    unfold pauseDocs
    refine map_comp_self_of fun s _ => ?_
    split <;> rfl
  · intro d now
    rw [onDocumentCreated_schedules]
    split
    · rfl
    · unfold pauseDocs
      refine map_comp_self_of fun s _ => ?_
      split <;> rfl
  · intro hid u now e' hok
    rcases releaseHold_ok e hid u now e' hok with ⟨_, _, hsch, _, _⟩
    rw [hsch]
    unfold resumeDocs
    refine map_comp_self_of fun s _ => ?_
    split <;> rfl

/-- Witness for C5's amended discipline at `demoEngine` with the duration
assignment that maps every policy to five years. -/
theorem deleteEligibleAt_discipline_witness :
    EligibleInv (fun _ => 5) (createSchedule demoEngine 7 demoPolicy (some 3) 9) ∧
    EligibleInv (fun _ => 5) (recompute demoEngine 5 demoPolicy (some 20) 9) ∧
    (onHoldApplied demoEngine 5 3).schedules.map schedTimes =
      demoEngine.schedules.map schedTimes :=
  ⟨(deleteEligibleAt_discipline (fun _ => 5) demoEngine (by decide)).1
      7 demoPolicy (some 3) 9 (by decide),
   (deleteEligibleAt_discipline (fun _ => 5) demoEngine (by decide)).2.1
      5 demoPolicy (some 20) 9 (by decide),
   (deleteEligibleAt_discipline (fun _ => 5) demoEngine (by decide)).2.2.1 5 3⟩

theorem laterOf_spec (m d : StateDefault) :
    ∃ r, laterOf (some m) d = some r ∧ (r = m ∨ r = d) ∧
      m.effectiveDate ≤ r.effectiveDate ∧ d.effectiveDate ≤ r.effectiveDate := by
  unfold laterOf
  dsimp only
  by_cases h : m.effectiveDate < d.effectiveDate
  · exact ⟨d, by rw [if_pos h], Or.inr rfl, by omega, Nat.le_refl _⟩
  · exact ⟨m, by rw [if_neg h], Or.inl rfl, Nat.le_refl _, by omega⟩

theorem foldl_laterOf_some (t : List StateDefault) (m : StateDefault) :
    ∃ r, t.foldl laterOf (some m) = some r ∧ (r = m ∨ r ∈ t) ∧
      m.effectiveDate ≤ r.effectiveDate ∧
      ∀ x ∈ t, x.effectiveDate ≤ r.effectiveDate := by
  induction t generalizing m with
  | nil => exact ⟨m, rfl, Or.inl rfl, Nat.le_refl _, by simp⟩
  | cons d t ih =>
    rcases laterOf_spec m d with ⟨r1, hr1, hcase1, hm1, hd1⟩
    rcases ih r1 with ⟨r, hr, hcase, hle, hall⟩
    refine ⟨r, ?_, ?_, by omega, ?_⟩
    · rw [List.foldl_cons, hr1, hr]
    · rcases hcase with rfl | hmem
      · rcases hcase1 with rfl | rfl
        · exact Or.inl rfl
        · exact Or.inr (List.mem_cons_self _ _)
      · exact Or.inr (List.mem_cons_of_mem _ hmem)
    · intro x hx
      rcases List.mem_cons.mp hx with rfl | hx
      · omega
      · exact hall x hx

theorem pickLatest_spec (l : List StateDefault) :
    (pickLatest l = none ↔ l = []) ∧
    ∀ r, pickLatest l = some r → r ∈ l ∧
      ∀ x ∈ l, x.effectiveDate ≤ r.effectiveDate := by
  cases l with
  | nil =>
    refine ⟨by simp [pickLatest], fun r h => ?_⟩
    simp [pickLatest] at h
  | cons d t =>
    have h0 : pickLatest (d :: t) = t.foldl laterOf (some d) := by
      rw [pickLatest, List.foldl_cons]
      rfl
    rcases foldl_laterOf_some t d with ⟨r, hr, hcase, hmle, hall⟩
    constructor
    · rw [h0, hr]
      simp
    · intro r' hr'
      rw [h0, hr] at hr'
      cases hr'
      refine ⟨?_, ?_⟩
      · rcases hcase with rfl | hmem
        · exact List.mem_cons_self _ _
        · exact List.mem_cons_of_mem _ hmem
      · intro x hx
        rcases List.mem_cons.mp hx with rfl | hx
        · exact hmle
        · exact hall x hx

/-- C6: `resolvePolicy` resolves in the order org-level category override
(present and active) → latest applicable state default (`effectiveDate ≤
asOf`, the maximum among possibly many rows) → system fallback, and fails
with `NoPolicyResolvable` exactly when all three levels are empty. -/
theorem resolvePolicy_resolution (env : ResolverEnv) (stateCode : String)
    (categoryId orgId asOf : Nat) :
    (resolvePolicy env stateCode categoryId orgId asOf = .error .noPolicyResolvable ↔
      findOverride env categoryId orgId = none ∧
        applicableDefaults env stateCode asOf = [] ∧ env.systemFallback = none) ∧
    (∀ o, findOverride env categoryId orgId = some o →
      resolvePolicy env stateCode categoryId orgId asOf = .ok o.policy) ∧
    (∀ d, findOverride env categoryId orgId = none →
      pickLatest (applicableDefaults env stateCode asOf) = some d →
      resolvePolicy env stateCode categoryId orgId asOf = .ok d.policy ∧
        d ∈ applicableDefaults env stateCode asOf ∧
        ∀ x ∈ applicableDefaults env stateCode asOf,
          x.effectiveDate ≤ d.effectiveDate) ∧
    (∀ p, findOverride env categoryId orgId = none →
      applicableDefaults env stateCode asOf = [] → env.systemFallback = some p →
      resolvePolicy env stateCode categoryId orgId asOf = .ok p) := by
  refine ⟨?_, ?_, ?_, ?_⟩
  · unfold resolvePolicy
    cases ho : findOverride env categoryId orgId with
    | some o => simp
    | none =>
      cases hp : pickLatest (applicableDefaults env stateCode asOf) with
      | some d =>
        simp only [true_and]
        constructor
        · intro h
          exact absurd h (by simp)
        · rintro ⟨happ, _⟩
          rw [happ] at hp
          exact absurd hp (by simp [pickLatest])
      | none =>
        cases hf : env.systemFallback with
        | some p => simp
        | none =>
          simp only [true_and, and_true]
          constructor
          · intro _
            exact (pickLatest_spec _).1.mp hp
          · intro _
            trivial
  · intro o ho
    unfold resolvePolicy
    rw [ho]
  · intro d ho hp
    refine ⟨?_, ((pickLatest_spec _).2 d hp).1, ((pickLatest_spec _).2 d hp).2⟩
    unfold resolvePolicy
    rw [ho]
    dsimp only
    rw [hp]
  · intro p ho happ hf
    unfold resolvePolicy
    rw [ho]
    dsimp only
    rw [happ]
    have hnone : pickLatest ([] : List StateDefault) = none := rfl
    rw [hnone]
    dsimp only
    rw [hf]

/-- Witness for C6 at concrete configurations: the empty deployment fails
with `NoPolicyResolvable`; an active override wins; with no override the
latest applicable Florida default (effective 7 ≤ 10) wins over the older
one; with nothing but a fallback the fallback wins. -/
theorem resolvePolicy_resolution_witness :
    resolvePolicy bareResolverEnv "FL" 4 1 10 = .error .noPolicyResolvable ∧
    resolvePolicy demoResolverEnv "FL" 4 1 10 = .ok demoOverride.policy ∧
    (resolvePolicy stateResolverEnv "FL" 4 1 10 = .ok demoDefault2.policy ∧
      demoDefault2 ∈ applicableDefaults stateResolverEnv "FL" 10 ∧
      ∀ x ∈ applicableDefaults stateResolverEnv "FL" 10,
        x.effectiveDate ≤ demoDefault2.effectiveDate) ∧
    resolvePolicy fallbackResolverEnv "FL" 4 1 10 = .ok demoPolicy :=
  ⟨(resolvePolicy_resolution bareResolverEnv "FL" 4 1 10).1.mpr
      ⟨by decide, by decide, by decide⟩,
   (resolvePolicy_resolution demoResolverEnv "FL" 4 1 10).2.1 demoOverride (by decide),
   (resolvePolicy_resolution stateResolverEnv "FL" 4 1 10).2.2.1 demoDefault2
      (by decide) (by decide),
   (resolvePolicy_resolution fallbackResolverEnv "FL" 4 1 10).2.2.2 demoPolicy
      (by decide) (by decide) (by decide)⟩

/-- C8: a successful `releaseHold` consumed a hold that was `active`, marks
every row of that hold id `released` with `releasedAt`/`releasedBy`
stamped, a second `releaseHold` on the same id fails with `AlreadyReleased`
(returning no new state, so the hold is left unchanged), and no later
release of any hold reactivates it. -/
theorem releaseHold_exactly_once (e : Engine) (hid u1 t1 : Nat) (e1 : Engine)
    (hok : releaseHold e hid u1 t1 = .ok e1) :
    (∃ g ∈ e.holds, g.id = hid ∧ g.status = .active) ∧
    (∀ g ∈ e1.holds, g.id = hid →
      g.status = .released ∧ g.releasedAt = some t1 ∧ g.releasedBy = some u1) ∧
    (∀ u2 t2, releaseHold e1 hid u2 t2 = .error .alreadyReleased) ∧
    (∀ hid2 u2 t2 e2, releaseHold e1 hid2 u2 t2 = .ok e2 →
      ∀ g ∈ e2.holds, g.id = hid → g.status = .released) := by
  rcases releaseHold_ok e hid u1 t1 e1 hok with ⟨hholds, _, _, hwas, _⟩
  have hrel : ∀ g ∈ e1.holds, g.id = hid →
      g.status = .released ∧ g.releasedAt = some t1 ∧ g.releasedBy = some u1 := by
    rw [hholds]
    unfold releaseHolds
    intro g hg hgid
    rcases List.mem_map.mp hg with ⟨g0, _, rfl⟩
    by_cases h0 : g0.id = hid
    · rw [if_pos h0]
      exact ⟨rfl, rfl, rfl⟩
    · rw [if_neg h0] at hgid
      exact absurd hgid h0
  refine ⟨hwas, hrel, ?_, ?_⟩
  · intro u2 t2
    have hpf : ((fun h => decide (h.id = hid)) ∘ (fun g : Hold =>
        if g.id = hid then
          { g with status := .released, releasedAt := some t1, releasedBy := some u1 }
        else g)) = (fun h : Hold => decide (h.id = hid)) := by
      funext g
      by_cases h0 : g.id = hid <;> simp [Function.comp, h0]
    have hfind1 : e1.holds.find? (fun h => decide (h.id = hid)) =
        (e.holds.find? (fun h => decide (h.id = hid))).map
          (fun g => if g.id = hid then
            { g with status := .released, releasedAt := some t1, releasedBy := some u1 }
          else g) := by
      rw [hholds]
      unfold releaseHolds
      rw [List.find?_map, hpf]
    cases hf0 : e.holds.find? (fun h => decide (h.id = hid)) with
    | none =>
      rw [List.find?_eq_none] at hf0
      rcases hwas with ⟨g, hg, hgid, _⟩
      exact absurd (by simpa using hgid) (hf0 g hg)
    | some h0 =>
      have hid0 : h0.id = hid := by simpa using List.find?_some hf0
      unfold releaseHold
      rw [hfind1, hf0]
      dsimp only [Option.map]
      rw [if_pos (show (if h0.id = hid then
          { h0 with status := .released, releasedAt := some t1,
                    releasedBy := some u1 }
        else h0).status = .released by rw [if_pos hid0])]
  · intro hid2 u2 t2 e2 hok2
    rcases releaseHold_ok e1 hid2 u2 t2 e2 hok2 with ⟨hholds2, _, _, _, _⟩
    rw [hholds2]
    unfold releaseHolds
    intro g hg hgid
    rcases List.mem_map.mp hg with ⟨g0, hg0, rfl⟩
    by_cases h0 : g0.id = hid2
    · rw [if_pos h0]
    · rw [if_neg h0] at hgid ⊢
      exact (hrel g0 hg0 hgid).1

/-- Witness for C8: releasing hold 1 of `demoEngine` succeeds from `active`
and a second release of hold 1 reports `AlreadyReleased`. -/
theorem releaseHold_exactly_once_witness :
    (∃ g ∈ demoEngine.holds, g.id = 1 ∧ g.status = .active) ∧
    releaseHold (releaseHoldRun demoEngine 1 9 100) 1 7 200 =
      .error .alreadyReleased :=
  ⟨(releaseHold_exactly_once demoEngine 1 9 100 (releaseHoldRun demoEngine 1 9 100)
      (releaseHold_is_ok demoEngine 1 9 100 (by decide) (by decide))).1,
   (releaseHold_exactly_once demoEngine 1 9 100 (releaseHoldRun demoEngine 1 9 100)
      (releaseHold_is_ok demoEngine 1 9 100 (by decide) (by decide))).2.2.1 7 200⟩

/-- C2: with two distinct active holds `h1` and `h2` both targeting
document `d` (and no other active hold targeting it) and `d`'s schedule
paused, releasing `h1` succeeds but leaves the schedule
`paused_legal_hold`, because `onHoldReleased` resumes only when zero
active targets remain; releasing `h2` afterwards succeeds and returns the
schedule to `scheduled`. Instantiating `h1`/`h2` in the other order gives
the symmetric sequence, so the property holds for either order of
application and release. -/
theorem overlapping_holds_release (e : Engine) (h1 h2 d u1 u2 t1 t2 : Nat)
    (hne : h1 ≠ h2)
    (hmem1 : ∃ g ∈ e.holds, g.id = h1)
    (hact1 : ∀ g ∈ e.holds, g.id = h1 → g.status = .active)
    (hmem2 : ∃ g ∈ e.holds, g.id = h2)
    (hact2 : ∀ g ∈ e.holds, g.id = h2 → g.status = .active)
    (_ht1 : (⟨h1, d⟩ : Target) ∈ e.targets)
    (ht2 : (⟨h2, d⟩ : Target) ∈ e.targets)
    (honly : ∀ tg ∈ e.targets, tg.documentId = d →
      tg.legalHoldId = h1 ∨ tg.legalHoldId = h2 ∨
        listHoldActive e.holds tg.legalHoldId = false)
    (hsched : ∀ s ∈ e.schedules, s.documentId = d → s.status = .pausedLegalHold) :
    releaseHold e h1 u1 t1 = .ok (releaseHoldRun e h1 u1 t1) ∧
    (∀ s ∈ (releaseHoldRun e h1 u1 t1).schedules, s.documentId = d →
      s.status = .pausedLegalHold) ∧
    releaseHold (releaseHoldRun e h1 u1 t1) h2 u2 t2 =
      .ok (releaseHoldRun (releaseHoldRun e h1 u1 t1) h2 u2 t2) ∧
    (∀ s ∈ (releaseHoldRun (releaseHoldRun e h1 u1 t1) h2 u2 t2).schedules,
      s.documentId = d → s.status = .scheduled) := by
  have hstep1 : releaseHold e h1 u1 t1 = .ok (releaseHoldRun e h1 u1 t1) :=
    releaseHold_is_ok e h1 u1 t1 hmem1 hact1
  rcases releaseHold_ok e h1 u1 t1 (releaseHoldRun e h1 u1 t1) hstep1 with
    ⟨hholds1, htargets1, hsched1, _, _⟩
  have hactive2 : listHoldActive e.holds h2 = true := by
    rw [listHoldActive_iff]
    rcases hmem2 with ⟨g, hg, hgid⟩
    exact ⟨g, hg, hgid, hact2 g hg hgid⟩
  have hconcl2 : ∀ s ∈ (releaseHoldRun e h1 u1 t1).schedules, s.documentId = d →
      s.status = .pausedLegalHold := by
    rw [hsched1]
    unfold resumeDocs
    intro s hs hdoc
    rcases List.mem_map.mp hs with ⟨s0, hs0, rfl⟩
    have hdoc0 : s0.documentId = d := by
      revert hdoc
      split <;> exact id
    have hpaused0 := hsched s0 hs0 hdoc0
    have hactT : hasActiveTarget
        { e with holds := releaseHolds e.holds h1 u1 t1 } s0.documentId = true := by
      unfold hasActiveTarget
      rw [listActiveTarget_iff]
      refine ⟨⟨h2, d⟩, ht2, hdoc0.symm, ?_⟩
      show listHoldActive (releaseHolds e.holds h1 u1 t1) h2 = true
      rw [listHoldActive_releaseHolds]
      simp [hactive2, Ne.symm hne]
    have hnc : ¬(s0.documentId ∈ targetedDocs e h1 ∧ s0.status = .pausedLegalHold ∧
        hasActiveTarget { e with holds := releaseHolds e.holds h1 u1 t1 }
          s0.documentId = false) := by
      rintro ⟨_, _, hfalse⟩
      rw [hactT] at hfalse
      cases hfalse
    rw [if_neg hnc]
    exact hpaused0
  have hmem2' : ∃ g ∈ (releaseHoldRun e h1 u1 t1).holds, g.id = h2 := by
    rw [hholds1]
    unfold releaseHolds
    rcases hmem2 with ⟨g, hg, hgid⟩
    refine ⟨_, List.mem_map_of_mem _ hg, ?_⟩
    rw [if_neg (by rw [hgid]; exact fun hh => hne hh.symm)]
    exact hgid
  have hact2' : ∀ g ∈ (releaseHoldRun e h1 u1 t1).holds, g.id = h2 →
      g.status = .active := by
    rw [hholds1]
    unfold releaseHolds
    intro g hg hgid
    rcases List.mem_map.mp hg with ⟨g0, hg0, rfl⟩
    by_cases h0 : g0.id = h1
    · rw [if_pos h0] at hgid
      exact absurd (h0.symm.trans (hgid : g0.id = h2)) hne
    · rw [if_neg h0] at hgid ⊢
      exact hact2 g0 hg0 hgid
  have hstep3 : releaseHold (releaseHoldRun e h1 u1 t1) h2 u2 t2 =
      .ok (releaseHoldRun (releaseHoldRun e h1 u1 t1) h2 u2 t2) :=
    releaseHold_is_ok _ h2 u2 t2 hmem2' hact2'
  rcases releaseHold_ok _ h2 u2 t2 _ hstep3 with ⟨_, htargets2, hsched2, _, _⟩
  have hconcl4 : ∀ s ∈ (releaseHoldRun (releaseHoldRun e h1 u1 t1) h2 u2 t2).schedules,
      s.documentId = d → s.status = .scheduled := by
    rw [hsched2]
    unfold resumeDocs
    intro s hs hdoc
    rcases List.mem_map.mp hs with ⟨s0, hs0, rfl⟩
    have hdoc0 : s0.documentId = d := by
      revert hdoc
      split <;> exact id
    have hpaused0 : s0.status = .pausedLegalHold := hconcl2 s0 hs0 hdoc0
    have hin : s0.documentId ∈ targetedDocs (releaseHoldRun e h1 u1 t1) h2 := by
      rw [targetedDocs_mem]
      refine ⟨⟨h2, d⟩, ?_, rfl, hdoc0.symm⟩
      rw [htargets1]
      exact ht2
    have hfalseT : hasActiveTarget
        { releaseHoldRun e h1 u1 t1 with
          holds := releaseHolds (releaseHoldRun e h1 u1 t1).holds h2 u2 t2 }
        s0.documentId = false := by
      rw [Bool.eq_false_iff]
      intro hT
      unfold hasActiveTarget at hT
      rw [listActiveTarget_iff] at hT
      rcases hT with ⟨tg, htg, htgdoc, hact⟩
      have hact' : listHoldActive
          (releaseHolds (releaseHoldRun e h1 u1 t1).holds h2 u2 t2)
          tg.legalHoldId = true := hact
      rw [listHoldActive_releaseHolds, hholds1, listHoldActive_releaseHolds] at hact'
      simp only [Bool.and_eq_true, decide_eq_true_eq] at hact'
      obtain ⟨hne2, hne1, hbase⟩ := hact'
      have htg' : tg ∈ e.targets := by
        have hmem : tg ∈ (releaseHoldRun e h1 u1 t1).targets := htg
        rwa [htargets1] at hmem
      have hdtg : tg.documentId = d := by rw [htgdoc, hdoc0]
      rcases honly tg htg' hdtg with hc | hc | hc
      · exact hne1 hc
      · exact hne2 hc
      · rw [hc] at hbase
        cases hbase
    rw [if_pos ⟨hin, hpaused0, hfalseT⟩]
  exact ⟨hstep1, hconcl2, hstep3, hconcl4⟩

/-- Witness for C2 in `demoEngine`: document 5 is under active holds 1 and
2 with its schedule paused; releasing hold 1 leaves it paused, releasing
hold 2 afterwards returns it to `scheduled`. -/
theorem overlapping_holds_release_witness :
    (∀ s ∈ (releaseHoldRun demoEngine 1 9 100).schedules, s.documentId = 5 →
      s.status = .pausedLegalHold) ∧
    (∀ s ∈ (releaseHoldRun (releaseHoldRun demoEngine 1 9 100) 2 9 200).schedules,
      s.documentId = 5 → s.status = .scheduled) :=
  ⟨(overlapping_holds_release demoEngine 1 2 5 9 9 100 200 (by decide) (by decide)
      (by decide) (by decide) (by decide) (by decide) (by decide) (by decide)
      (by decide)).2.1,
   (overlapping_holds_release demoEngine 1 2 5 9 9 100 200 (by decide) (by decide)
      (by decide) (by decide) (by decide) (by decide) (by decide) (by decide)
      (by decide)).2.2.2⟩

/-- C9: every engine operation only appends to the audit ledger — the prior
events are preserved unchanged as a prefix, never updated or deleted — and
`queryAudit` returns exactly the events matching the filters, ordered by
the total order `(createdAt, id)`; being a pure function of the ledger and
filters, re-running it over an unchanged ledger returns the same
sequence. -/
theorem audit_append_only_and_query (e : Engine) (l : List AuditEvent)
    (f : AuditFilters) :
    (∀ docId p st now, ∃ tail,
      (createSchedule e docId p st now).ledger = e.ledger ++ tail) ∧
    (∀ docId p st now, ∃ tail,
      (recompute e docId p st now).ledger = e.ledger ++ tail) ∧
    (∀ docId now, ∃ tail, (onHoldApplied e docId now).ledger = e.ledger ++ tail) ∧
    (∀ docId now, ∃ tail, (onHoldReleased e docId now).ledger = e.ledger ++ tail) ∧
    (∀ hid scl cb now, ∃ tail,
      (createHold e hid scl cb now).ledger = e.ledger ++ tail) ∧
    (∀ d now, ∃ tail, (onDocumentCreated e d now).ledger = e.ledger ++ tail) ∧
    (∀ now, ∃ tail, (sweep e now).ledger = e.ledger ++ tail) ∧
    (∀ hid u now e', releaseHold e hid u now = .ok e' →
      ∃ tail, e'.ledger = e.ledger ++ tail) ∧
    List.Sorted auditLe (queryAudit l f) ∧
    (∀ ev, ev ∈ queryAudit l f ↔ ev ∈ l ∧ matchesFilters f ev = true) := by
  refine ⟨?_, ?_, ?_, ?_, ?_, ?_, ?_, ?_, ?_, ?_⟩
  · intro docId p st now
    exact ⟨_, rfl⟩
  · intro docId p st now
    simp only [recompute]
    split
    · exact ⟨_, rfl⟩
    · exact ⟨[], (List.append_nil _).symm⟩
  · intro docId now
    simp only [onHoldApplied]
    split
    · exact ⟨_, rfl⟩
    · exact ⟨[], (List.append_nil _).symm⟩
  · intro docId now
    simp only [onHoldReleased]
    split
    · exact ⟨_, rfl⟩
    · exact ⟨[], (List.append_nil _).symm⟩
  · intro hid scl cb now
    exact ⟨_, rfl⟩
  · intro d now
    exact ⟨_, rfl⟩
  · intro now
    exact ⟨_, rfl⟩
  · intro hid u now e' hok
    exact (releaseHold_ok e hid u now e' hok).2.2.2.2
  · exact List.sorted_insertionSort auditLe _
  · intro ev
    unfold queryAudit
    rw [(List.perm_insertionSort auditLe _).mem_iff, List.mem_filter]

/-- Witness for C9: a successful release appends to `demoEngine`'s ledger,
and the query over the concrete unordered `demoLedger` is sorted and
filters to entity 5. -/
theorem audit_append_only_and_query_witness :
    (∃ tail, (releaseHoldRun demoEngine 1 9 100).ledger =
      demoEngine.ledger ++ tail) ∧
    List.Sorted auditLe (queryAudit demoLedger demoFilters) ∧
    (∀ ev, ev ∈ queryAudit demoLedger demoFilters ↔
      ev ∈ demoLedger ∧ matchesFilters demoFilters ev = true) :=
  ⟨(audit_append_only_and_query demoEngine demoLedger demoFilters).2.2.2.2.2.2.2.1
      1 9 100 (releaseHoldRun demoEngine 1 9 100)
      (releaseHold_is_ok demoEngine 1 9 100 (by decide) (by decide)),
   (audit_append_only_and_query demoEngine demoLedger demoFilters).2.2.2.2.2.2.2.2.1,
   (audit_append_only_and_query demoEngine demoLedger demoFilters).2.2.2.2.2.2.2.2.2⟩

/-- C4: the state-machine invariant — a schedule is `paused_legal_hold` iff
at least one active target references its document — is preserved by every
engine operation: `createSchedule` (for a document with no active target,
per the §2 control flow), `onHoldApplied` (invoked by the Hold Manager
after target creation, so an active target exists), `onHoldReleased`,
`createHold` (fresh hold id; matched documents' schedules live),
`onDocumentCreated` (the new document's schedules live), `releaseHold`,
and the deletion sweep; and `onHoldApplied` is an idempotent no-op — state
and ledger unchanged — when the document's schedules are already paused. -/
theorem schedule_state_machine_inv (e : Engine) (hInv : Inv e) :
    (∀ docId p st now, hasActiveTarget e docId = false →
      Inv (createSchedule e docId p st now)) ∧
    (∀ docId now, hasActiveTarget e docId = true →
      Inv (onHoldApplied e docId now)) ∧
    (∀ docId now, Inv (onHoldReleased e docId now)) ∧
    (∀ hid scl cb now, (∀ tg ∈ e.targets, tg.legalHoldId ≠ hid) →
      (∀ s ∈ e.schedules, s.documentId ∈ matchedDocs e scl →
        s.status ≠ .deleted ∧ s.status ≠ .canceled) →
      Inv (createHold e hid scl cb now)) ∧
    (∀ d now, (∀ s ∈ e.schedules, s.documentId = d.id →
        s.status ≠ .deleted ∧ s.status ≠ .canceled) →
      Inv (onDocumentCreated e d now)) ∧
    (∀ hid u now e', releaseHold e hid u now = .ok e' → Inv e') ∧
    (∀ now, Inv (sweep e now)) ∧
    (∀ docId now, (∀ s ∈ e.schedules, s.documentId = docId →
        s.status = .pausedLegalHold) → onHoldApplied e docId now = e) := by
  refine ⟨?_, ?_, ?_, ?_, ?_, ?_, ?_, ?_⟩
  · -- createSchedule
    intro docId p st now hna
    unfold Inv
    intro s hs
    rw [createSchedule_schedules] at hs
    rw [hasActiveTarget_createSchedule]
    rcases List.mem_append.mp hs with hs | hs
    · exact hInv s hs
    · rcases List.mem_singleton.mp hs with rfl
      constructor
      · intro h
        simp at h
      · intro h
        have h' : hasActiveTarget e docId = true := h
        rw [hna] at h'
        cases h'
  · -- onHoldApplied
    intro docId now hat
    unfold Inv
    intro s hs
    rw [onHoldApplied_schedules] at hs
    rw [hasActiveTarget_onHoldApplied]
    rcases List.mem_map.mp hs with ⟨s0, hs0, rfl⟩
    by_cases hc : s0.documentId = docId ∧ s0.status = .scheduled
    · rw [if_pos hc]
      constructor
      · intro _
        show hasActiveTarget e s0.documentId = true
        rw [hc.1]
        exact hat
      · intro _
        rfl
    · rw [if_neg hc]
      exact hInv s0 hs0
  · -- onHoldReleased
    intro docId now
    unfold Inv
    intro s hs
    rw [onHoldReleased_schedules] at hs
    rw [hasActiveTarget_onHoldReleased]
    rcases List.mem_map.mp hs with ⟨s0, hs0, rfl⟩
    by_cases hc : s0.documentId = docId ∧ s0.status = .pausedLegalHold ∧
        hasActiveTarget e docId = false
    · exfalso
      obtain ⟨hd, hp, hf⟩ := hc
      have hT := (hInv s0 hs0).mp hp
      rw [hd, hf] at hT
      cases hT
    · rw [if_neg hc]
      exact hInv s0 hs0
  · -- createHold
    intro hid scl cb now hFresh hLive
    unfold Inv
    intro s hs
    rw [createHold_schedules] at hs
    unfold pauseDocs at hs
    rw [hasActiveTarget_createHold e hid scl cb now _ hFresh]
    rcases List.mem_map.mp hs with ⟨s0, hs0, rfl⟩
    by_cases hm : s0.documentId ∈ matchedDocs e scl
    · by_cases hc : s0.documentId ∈ matchedDocs e scl ∧ s0.status = .scheduled
      · rw [if_pos hc]
        constructor
        · intro _
          show (hasActiveTarget e s0.documentId ||
            decide (s0.documentId ∈ matchedDocs e scl)) = true
          simp [hm]
        · intro _
          rfl
      · rw [if_neg hc]
        have hnds := hLive s0 hs0 hm
        cases hstat : s0.status with
        | scheduled => exact absurd ⟨hm, hstat⟩ hc
        | pausedLegalHold => simp [hstat, hm]
        | deleted => exact absurd hstat hnds.1
        | canceled => exact absurd hstat hnds.2
    · rw [if_neg (fun hc => hm hc.1)]
      rw [show (decide (s0.documentId ∈ matchedDocs e scl)) = false by simp [hm],
        Bool.or_false]
      exact hInv s0 hs0
  · -- onDocumentCreated
    intro d now hLive
    unfold Inv
    intro s hs
    rw [onDocumentCreated_schedules] at hs
    by_cases hie : (matchedHoldIds e d).isEmpty = true
    · rw [if_pos hie] at hs
      by_cases hx : s.documentId = d.id
      · rw [hx, hasActiveTarget_onDocumentCreated_self]
        rw [hie]
        simp only [Bool.not_true, Bool.or_false]
        have hI := hInv s hs
        rwa [hx] at hI
      · rw [hasActiveTarget_onDocumentCreated_ne e d now _ hx]
        exact hInv s hs
    · have hf : (matchedHoldIds e d).isEmpty = false := Bool.eq_false_iff.mpr hie
      rw [if_neg hie] at hs
      unfold pauseDocs at hs
      rcases List.mem_map.mp hs with ⟨s0, hs0, rfl⟩
      by_cases hc : s0.documentId ∈ [d.id] ∧ s0.status = .scheduled
      · rw [if_pos hc]
        have hxd : s0.documentId = d.id := by simpa using hc.1
        constructor
        · intro _
          show hasActiveTarget (onDocumentCreated e d now) s0.documentId = true
          rw [hxd, hasActiveTarget_onDocumentCreated_self, hf]
          simp
        · intro _
          rfl
      · rw [if_neg hc]
        by_cases hx : s0.documentId = d.id
        · have hnotsch : s0.status ≠ .scheduled := fun hsch =>
            hc ⟨by simp [hx], hsch⟩
          have hnds := hLive s0 hs0 hx
          rw [hx, hasActiveTarget_onDocumentCreated_self, hf]
          simp only [Bool.not_false, Bool.or_true, iff_true]
          cases hstat : s0.status with
          | scheduled => exact absurd hstat hnotsch
          | pausedLegalHold => rfl
          | deleted => exact absurd hstat hnds.1
          | canceled => exact absurd hstat hnds.2
        · rw [hasActiveTarget_onDocumentCreated_ne e d now _ hx]
          exact hInv s0 hs0
  · -- releaseHold
    intro hid u now e' hok
    rcases releaseHold_ok e hid u now e' hok with ⟨hholds, htargets, hscheds, _, _⟩
    have hAT : ∀ x, hasActiveTarget e' x =
        listActiveTarget e.targets (releaseHolds e.holds hid u now) x := by
      intro x
      unfold hasActiveTarget
      rw [htargets, hholds]
    have hA' : ∀ x, (listActiveTarget e.targets (releaseHolds e.holds hid u now) x
        = true) ↔
        ∃ tg ∈ e.targets, tg.documentId = x ∧ ¬tg.legalHoldId = hid ∧
          listHoldActive e.holds tg.legalHoldId = true := by
      intro x
      rw [listActiveTarget_iff]
      constructor
      · rintro ⟨tg, htg, hdoc, hact⟩
        rw [listHoldActive_releaseHolds] at hact
        simp only [Bool.and_eq_true, decide_eq_true_eq] at hact
        exact ⟨tg, htg, hdoc, hact.1, hact.2⟩
      · rintro ⟨tg, htg, hdoc, hne', hact⟩
        refine ⟨tg, htg, hdoc, ?_⟩
        rw [listHoldActive_releaseHolds]
        simp [hne', hact]
    have hmono : ∀ x,
        listActiveTarget e.targets (releaseHolds e.holds hid u now) x = true →
        hasActiveTarget e x = true := by
      intro x hx
      rcases (hA' x).mp hx with ⟨tg, htg, hdoc, _, hact⟩
      exact hasActiveTarget_iff.mpr ⟨tg, htg, hdoc, hact⟩
    unfold Inv
    intro s hs
    rw [hscheds] at hs
    unfold resumeDocs at hs
    rcases List.mem_map.mp hs with ⟨s0, hs0, rfl⟩
    by_cases hc : s0.documentId ∈ targetedDocs e hid ∧ s0.status = .pausedLegalHold ∧
        hasActiveTarget { e with holds := releaseHolds e.holds hid u now }
          s0.documentId = false
    · rw [if_pos hc]
      constructor
      · intro h
        simp at h
      · intro h
        exfalso
        have h2 : listActiveTarget e.targets (releaseHolds e.holds hid u now)
            s0.documentId = true := by
          have h' : hasActiveTarget e' s0.documentId = true := h
          rwa [hAT] at h'
        have hfalse : listActiveTarget e.targets (releaseHolds e.holds hid u now)
            s0.documentId = false := hc.2.2
        rw [h2] at hfalse
        cases hfalse
    · rw [if_neg hc]
      rw [hAT]
      by_cases hin : s0.documentId ∈ targetedDocs e hid
      · by_cases hp : s0.status = .pausedLegalHold
        · have hTrue : listActiveTarget e.targets (releaseHolds e.holds hid u now)
              s0.documentId = true := by
            cases hb : listActiveTarget e.targets (releaseHolds e.holds hid u now)
                s0.documentId with
            | true => rfl
            | false => exact absurd ⟨hin, hp, (hb :
                hasActiveTarget { e with holds := releaseHolds e.holds hid u now }
                  s0.documentId = false)⟩ hc
          simp [hp, hTrue]
        · have hOld : hasActiveTarget e s0.documentId = false :=
            Bool.eq_false_iff.mpr fun hh => hp ((hInv s0 hs0).mpr hh)
          have hAfalse : listActiveTarget e.targets
              (releaseHolds e.holds hid u now) s0.documentId = false := by
            cases hb : listActiveTarget e.targets (releaseHolds e.holds hid u now)
                s0.documentId with
            | false => rfl
            | true =>
              have := hmono _ hb
              rw [hOld] at this
              cases this
          simp [hp, hAfalse]
      · have hAeq : listActiveTarget e.targets (releaseHolds e.holds hid u now)
            s0.documentId = hasActiveTarget e s0.documentId := by
          rw [Bool.eq_iff_iff, hA', hasActiveTarget_iff]
          constructor
          · rintro ⟨tg, htg, hdoc, _, hact⟩
            exact ⟨tg, htg, hdoc, hact⟩
          · rintro ⟨tg, htg, hdoc, hact⟩
            refine ⟨tg, htg, hdoc, ?_, hact⟩
            intro hh
            exact hin (targetedDocs_mem.mpr ⟨tg, htg, hh, hdoc⟩)
        rw [hAeq]
        exact hInv s0 hs0
  · -- sweep
    intro now
    unfold Inv
    intro s hs
    rw [sweep_schedules] at hs
    rw [hasActiveTarget_sweep]
    rcases List.mem_map.mp hs with ⟨s0, hs0, rfl⟩
    by_cases hc : dueAndClear e now s0 = true
    · rw [if_pos hc]
      have hna : hasActiveTarget e s0.documentId = false := by
        unfold dueAndClear at hc
        simp only [Bool.and_eq_true, Bool.not_eq_true'] at hc
        exact hc.2
      constructor
      · intro h
        simp at h
      · intro h
        have h' : hasActiveTarget e s0.documentId = true := h
        rw [hna] at h'
        cases h'
    · rw [if_neg hc]
      exact hInv s0 hs0
  · -- onHoldApplied no-op
    intro docId now hp
    have hch : (e.schedules.any fun s =>
        decide (s.documentId = docId) && decide (s.status = .scheduled)) = false := by
      rw [List.any_eq_false]
      intro s hs
      by_cases hd : s.documentId = docId
      · simp [hp s hs hd]
      · simp [hd]
    have hmapid : (e.schedules.map fun s =>
        if s.documentId = docId ∧ s.status = .scheduled then
          { s with status := .pausedLegalHold }
        else s) = e.schedules := by
      refine map_self_of fun s hs => ?_
      rw [if_neg]
      rintro ⟨hd, hsch⟩
      rw [hp s hs hd] at hsch
      cases hsch
    simp only [onHoldApplied, hch]
    simp only [Bool.false_eq_true, if_false]
    rw [hmapid]

/-- Witness for C4 at `demoEngine` (which satisfies the invariant): each
operation's result still satisfies the invariant, and `onHoldApplied` on
the already-paused document 5 is the identity. -/
theorem schedule_state_machine_inv_witness :
    Inv (createSchedule demoEngine 7 demoPolicy (some 3) 9) ∧
    Inv (onHoldApplied demoEngine 5 3) ∧
    Inv (onHoldReleased demoEngine 5 3) ∧
    Inv (createHold demoEngine 8 [ScopeType.allOrg] 2 4) ∧
    Inv (onDocumentCreated demoEngine
      { id := 9, employeeId := 2, department := "Engineering", categoryId := none,
        receivedAt := 20 } 21) ∧
    Inv (releaseHoldRun demoEngine 1 9 100) ∧
    Inv (sweep demoEngine 100) ∧
    onHoldApplied demoEngine 5 3 = demoEngine :=
  ⟨(schedule_state_machine_inv demoEngine (by decide)).1
      7 demoPolicy (some 3) 9 (by decide),
   (schedule_state_machine_inv demoEngine (by decide)).2.1 5 3 (by decide),
   (schedule_state_machine_inv demoEngine (by decide)).2.2.1 5 3,
   (schedule_state_machine_inv demoEngine (by decide)).2.2.2.1
      8 [ScopeType.allOrg] 2 4 (by decide) (by decide),
   (schedule_state_machine_inv demoEngine (by decide)).2.2.2.2.1
      { id := 9, employeeId := 2, department := "Engineering", categoryId := none,
        receivedAt := 20 } 21 (by decide),
   (schedule_state_machine_inv demoEngine (by decide)).2.2.2.2.2.1
      1 9 100 (releaseHoldRun demoEngine 1 9 100)
      (releaseHold_is_ok demoEngine 1 9 100 (by decide) (by decide)),
   (schedule_state_machine_inv demoEngine (by decide)).2.2.2.2.2.2.1 100,
   (schedule_state_machine_inv demoEngine (by decide)).2.2.2.2.2.2.2 5 3 (by decide)⟩

end DocFlow

